import Mathlib

/-!
Shallow embedding of `pgxrecord` (jackc/pgxrecord, file `pgxrecord.go`,
the pgx/v5 variant) in Lean 4, together with theorems settling the
specification claims about it.

Conventions of the embedding:
* Go `any` attribute values are modelled by `GoValue` (with `GoValue.nil`
  standing for a nil interface value).
* Go slices are Lean lists; a nil slice of attributes is `Option.none`.
* Go maps (`map[string]any`) are association lists; Go's unspecified map
  iteration order is modelled by quantifying over the order of the list.
* The database handle `DB` is a function from (sql, args) to a
  `QueryResult`; `pgx.Rows` iteration is modelled by the list of rows in
  the result together with the command tag and a possible rows-level error.
* `strconv.FormatInt(n, 10)` is modelled by `natStr` (decimal notation).
* `pgx.Identifier.Sanitize` is modelled by `identifierSanitize`
  (NUL removal, quote doubling, wrapping in double quotes, dot joining).
* `sort.Strings` is modelled by insertion sort with respect to `≤`
  (any correct ascending sort; the output is determined by the multiset).
-/

namespace Pgxrecord

/-- A dynamically typed Go value (`any`), as stored in a Record's attribute
slots. `nil` is the nil interface value. -/
inductive GoValue where
  | nil
  | int (n : Int)
  | str (s : String)
deriving DecidableEq

/-- Model of `pgconn.CommandTag`: only the rows-affected count is relevant. -/
structure CommandTag where
  rowsAffected : Nat
deriving DecidableEq

/-- Result of `DB.Query`: either an immediate query error, or a result set
(list of rows, each a list of column values) with a command tag and a
possible rows-level error reported by `rows.Err()` after iteration. -/
inductive QueryResult where
  | queryError (e : String)
  | resultRows (rs : List (List GoValue)) (tag : CommandTag) (rowsErr : Option String)
deriving DecidableEq

/-- The `DB` interface: `Query(ctx, sql, args...)`. -/
abbrev GoDB := String → List GoValue → QueryResult

/-- Characters of a decimal numeral, fuelled so that it is structurally
recursive (the fuel `n + 1` always suffices). Models `strconv.FormatInt`. -/
def natCharsAux : Nat → Nat → List Char
  | 0, _ => []
  | fuel + 1, n =>
    if n < 10 then [Nat.digitChar n]
    else natCharsAux fuel (n / 10) ++ [Nat.digitChar (n % 10)]

/-- Decimal notation for a natural number, models `strconv.FormatInt(n, 10)`. -/
def natChars (n : Nat) : List Char := natCharsAux (n + 1) n

/-- Decimal notation as a string. -/
def natStr (n : Nat) : String := ⟨natChars n⟩

/-- NUL stripping done by `pgx.Identifier.Sanitize`. -/
def stripNul (l : List Char) : List Char := l.filter (fun c => c != '\x00')

/-- Quote doubling done by `pgx.Identifier.Sanitize`. -/
def doubleQuotes (l : List Char) : List Char :=
  l.flatMap (fun c => if c = '"' then ['"', '"'] else [c])

/-- Characters of a sanitized (quoted) SQL identifier. -/
def sanitizeChars (s : String) : List Char :=
  '"' :: (doubleQuotes (stripNul s.data) ++ ['"'])

/-- `sanitizeIdentifier` from pgxrecord.go: quotes a single identifier part. -/
def sanitizeIdentifier (s : String) : String := ⟨sanitizeChars s⟩

/-- Each element prefixed with the separator, concatenated. -/
def sepAll (sep : String) : List String → String
  | [] => ""
  | x :: xs => sep ++ (x ++ sepAll sep xs)

/-- Separator-joined list (`a, b, c`). -/
def commaJoin (sep : String) : List String → String
  | [] => ""
  | x :: xs => x ++ sepAll sep xs

/-- `pgx.Identifier.Sanitize`: each part quoted, joined with dots
(`strings.Join` modelled by `commaJoin`). -/
def identifierSanitize (parts : List String) : String :=
  commaJoin "." (parts.map sanitizeIdentifier)

/-- `Column` from pgxrecord.go. -/
structure Column where
  Name : String
  quotedName : String := ""
  OID : Nat := 0
  NotNull : Bool := false
  PrimaryKey : Bool := false
deriving DecidableEq

instance : Inhabited Column := ⟨{ Name := "" }⟩

/-- `Table` from pgxrecord.go. The `Normalize`/`Validate` hooks are function
fields on the Go struct; because the Lean `Table` is (transitively) a field of
`Record`, which the hooks take as an argument, they are passed to `Save` as
parameters instead of being stored here. -/
structure Table where
  Name : List String
  Columns : List Column
  finalized : Bool := false
  quotedQualifiedName : String := ""
  quotedName : String := ""
  selectQuery : String := ""
  selectByPKQuery : String := ""
  pkWhereClause : String := ""
  returningClause : String := ""
  pkIndexes : List Nat := []
  nameToColumnIndex : List (String × Nat) := []
  validationErrors : Option (List (String × String)) := none
deriving DecidableEq

/-- `Record` from pgxrecord.go. A nil `originalAttributes` slice is `none`. -/
structure Record where
  table : Table
  originalAttributes : Option (List GoValue) := none
  attributes : List GoValue
  assigned : List Bool
deriving DecidableEq

/-- State of a string-building loop that joins pieces with a separator,
tracking how many pieces were written (the Go code uses a counter or the
loop index for the same purpose). -/
structure JoinSt where
  b : String
  cnt : Nat

/-- State of a string-building loop that also appends query arguments. -/
structure ArgsJoinSt where
  b : String
  args : List GoValue
  cnt : Nat

/-- `buildNameToColumnIndex` from pgxrecord.go: a Go map from column name to
index, modelled as an association list; later entries overwrite earlier ones,
so lookups search the reversed list. -/
def buildNameToColumnIndex (columns : List Column) : List (String × Nat) :=
  columns.enum.map (fun p => (p.2.Name, p.1))

/-- Lookup in the modelled Go map (last binding wins). -/
def mapLookupNat (m : List (String × Nat)) (k : String) : Option Nat :=
  m.reverse.lookup k

/-- `Table.buildPKWhereClause`: `where pk1 = $1 and pk2 = $2 ...`. -/
def buildPKWhereClause (cols : List Column) (pkIdxs : List Nat) : String :=
  let st := pkIdxs.foldl
    (fun (st : JoinSt) idx =>
      { b := (if st.cnt > 0 then st.b ++ " and " else st.b) ++
          ((cols.getD idx default).quotedName ++ (" = $" ++ natStr (st.cnt + 1))),
        cnt := st.cnt + 1 })
    { b := "", cnt := 0 }
  "where " ++ st.b

/-- `Table.buildReturningClause`: `returning c1, c2, ...` over all columns. -/
def buildReturningClause (cols : List Column) : String :=
  let st := cols.foldl
    (fun (st : JoinSt) c =>
      { b := (if st.cnt > 0 then st.b ++ ", " else st.b) ++ c.quotedName,
        cnt := st.cnt + 1 })
    { b := "", cnt := 0 }
  "returning " ++ st.b

/-- `Table.buildSelectQuery`: `select t.c1, t.c2, ... from t`. -/
def buildSelectQuery (quotedName quotedQualifiedName : String) (cols : List Column) : String :=
  let st := cols.foldl
    (fun (st : JoinSt) c =>
      { b := (if st.cnt > 0 then st.b ++ ", " else st.b) ++
          (quotedName ++ ("." ++ c.quotedName)),
        cnt := st.cnt + 1 })
    { b := "", cnt := 0 }
  "select " ++ st.b ++ " from " ++ quotedQualifiedName

/-- `Table.finalize` from pgxrecord.go: computes every derived field. The Go
version mutates in place and panics when called twice; callers in the model
guard the call with `finalized` exactly as the source does. -/
def Table.finalize (t : Table) : Table :=
  let cols := t.Columns.map (fun c => { c with quotedName := sanitizeIdentifier c.Name })
  let pkIdxs := (List.range cols.length).filter (fun i => (cols.getD i default).PrimaryKey)
  let qqn := identifierSanitize t.Name
  let qn := sanitizeIdentifier (t.Name.getLastD "")
  let pkWhere := buildPKWhereClause cols pkIdxs
  let sel := buildSelectQuery qn qqn cols
  { t with
    finalized := true
    Columns := cols
    quotedQualifiedName := qqn
    quotedName := qn
    pkIndexes := pkIdxs
    pkWhereClause := pkWhere
    selectQuery := sel
    selectByPKQuery := sel ++ " " ++ pkWhere
    returningClause := buildReturningClause cols
    nameToColumnIndex := buildNameToColumnIndex cols }

/-- `Table.NewRecord`: an empty record; `make([]any, n)` yields nil values,
`make([]bool, n)` yields false flags, and `originalAttributes` stays nil. -/
def Table.NewRecord (t : Table) : Record :=
  let t := if t.finalized then t else t.finalize
  { table := t
    originalAttributes := none
    attributes := List.replicate t.Columns.length GoValue.nil
    assigned := List.replicate t.Columns.length false }

/-- `Table.RowToRecord`: hydrates a record from a scanned row. `row.Scan`
into pointers to all attributes succeeds exactly when the row has one value
per column; afterwards `originalAttributes` is set to a copy of the scanned
attributes (hence non-nil even when every value is nil). -/
def Table.RowToRecord (t : Table) (row : List GoValue) : Except String Record :=
  let t := if t.finalized then t else t.finalize
  let record := t.NewRecord
  if row.length = record.attributes.length then
    Except.ok { record with attributes := row, originalAttributes := some row }
  else
    Except.error "RowToRecord: scan error"

/-- Quoted name of the i-th column of the record's table
(`r.table.Columns[i].quotedName`). -/
def Table.colQuotedName (t : Table) (i : Nat) : String :=
  (t.Columns.getD i default).quotedName

/-- `Record.Set`: sets one attribute and marks it assigned; `none` models the
Go panic on an unknown attribute name. -/
def Record.Set (r : Record) (attrName : String) (value : GoValue) : Option Record :=
  match mapLookupNat r.table.nameToColumnIndex attrName with
  | none => none
  | some idx =>
    some { r with
      attributes := r.attributes.set idx value
      assigned := r.assigned.set idx true }

/-- `Record.Get`: reads one attribute; `none` models the Go panic. -/
def Record.Get (r : Record) (attrName : String) : Option GoValue :=
  match mapLookupNat r.table.nameToColumnIndex attrName with
  | none => none
  | some idx => some (r.attributes.getD idx GoValue.nil)

/-- `Record.SetAttributes` (lenient): sets the attributes in iteration order,
ignoring unknown keys. -/
def Record.SetAttributes (r : Record) : List (String × GoValue) → Record
  | [] => r
  | (k, v) :: rest =>
    match mapLookupNat r.table.nameToColumnIndex k with
    | none => r.SetAttributes rest
    | some idx =>
      Record.SetAttributes
        { r with attributes := r.attributes.set idx v, assigned := r.assigned.set idx true }
        rest

/-- `Record.SetAttributesStrict`: sets attributes in iteration order and
returns an error upon the first unknown key. The record state at that point
(with every earlier entry already applied, since the Go method mutates the
receiver in place) is returned alongside the error. -/
def Record.SetAttributesStrict (r : Record) : List (String × GoValue) → Option String × Record
  | [] => (none, r)
  | (k, v) :: rest =>
    match mapLookupNat r.table.nameToColumnIndex k with
    | none => (some ("attribute " ++ k ++ " is not found"), r)
    | some idx =>
      Record.SetAttributesStrict
        { r with attributes := r.attributes.set idx v, assigned := r.assigned.set idx true }
        rest

/-- `Record.insert` from pgxrecord.go: builds the INSERT statement over the
assigned columns using two passes over the `assigned` slice, exactly as the
Go loops do (counter-driven comma placement, placeholders numbered by the
post-increment counter, arguments positioned by the same counter). -/
def Record.insert (r : Record) : String × List GoValue :=
  let cols := (List.range r.assigned.length).foldl
    (fun (st : JoinSt) i =>
      if r.assigned.getD i false then
        { b := (if st.cnt > 0 then st.b ++ ", " else st.b) ++ r.table.colQuotedName i,
          cnt := st.cnt + 1 }
      else st)
    { b := "", cnt := 0 }
  let vals := (List.range r.assigned.length).foldl
    (fun (st : ArgsJoinSt) i =>
      if r.assigned.getD i false then
        { b := (if st.cnt > 0 then st.b ++ ", " else st.b) ++ ("$" ++ natStr (st.cnt + 1)),
          args := st.args ++ [r.attributes.getD i GoValue.nil],
          cnt := st.cnt + 1 }
      else st)
    { b := "", args := [], cnt := 0 }
  ("insert into " ++ r.table.quotedQualifiedName ++ " (" ++ cols.b ++
    ") values (" ++ vals.b ++ ") " ++ r.table.returningClause,
   vals.args)

/-- `Record.update` from pgxrecord.go: the primary-key attribute values are
appended to the argument list first, then each assigned column is emitted as
`col = $n` where `n` is the argument list's length after appending that
column's value. -/
def Record.update (r : Record) : String × List GoValue :=
  let args0 := r.table.pkIndexes.foldl
    (fun (acc : List GoValue) pkIdx => acc ++ [r.attributes.getD pkIdx GoValue.nil]) []
  let st := (List.range r.assigned.length).foldl
    (fun (st : ArgsJoinSt) i =>
      if r.assigned.getD i false then
        { b := (if st.cnt > 0 then st.b ++ ", " else st.b) ++
            (r.table.colQuotedName i ++ (" = $" ++ natStr (st.args.length + 1))),
          args := st.args ++ [r.attributes.getD i GoValue.nil],
          cnt := st.cnt + 1 }
      else st)
    { b := "", args := args0, cnt := 0 }
  ("update " ++ r.table.quotedQualifiedName ++ " set " ++ st.b ++ " " ++
    r.table.pkWhereClause ++ " " ++ r.table.returningClause,
   st.args)

/-- The insert-vs-update decision inside `Record.Save` (pgxrecord.go lines
682-689): solely the nil-ness of `originalAttributes` selects the statement. -/
def Record.saveQuery (r : Record) : String × List GoValue :=
  match r.originalAttributes with
  | none => r.insert
  | some _ => r.update

/-- Errors surfaced by the modelled operations. `errNoRows` is `pgx.ErrNoRows`
and `tooManyRows` is pgxrecord's `errTooManyRows`; the wrapping with
`fmt.Errorf("...: %w", err)` preserves error identity and is not modelled. -/
inductive SaveErr where
  | queryError (e : String)
  | errNoRows
  | tooManyRows
  | rowsError (e : String)
  | normalizeError (e : String)
  | validateError (e : String)
deriving DecidableEq

/-- `rows.Scan` into pointers to every attribute: replaces the attribute
vector when the row width matches, otherwise scans nothing (pgx's Scan
reports a destination-count mismatch before writing; `queryRow` ignores the
returned error). -/
def scanRow (targets row : List GoValue) : List GoValue :=
  if row.length = targets.length then row else targets

/-- `queryRow` from pgxrecord.go: single-row query. Returns the error (if
any) and the final contents of the scan targets. The first returned row is
scanned *before* the check for a second row. -/
def queryRow (db : GoDB) (sql : String) (args : List GoValue)
    (scanTargets : List GoValue) : Option SaveErr × List GoValue :=
  match db sql args with
  | .queryError e => (some (.queryError e), scanTargets)
  | .resultRows [] _ _ => (some .errNoRows, scanTargets)
  | .resultRows (r1 :: rest) _ rowsErr =>
    let scanned := scanRow scanTargets r1
    if rest.isEmpty then
      match rowsErr with
      | some e => (some (.rowsError e), scanned)
      | none => (none, scanned)
    else (some .tooManyRows, scanned)

/-- A Normalize hook: may mutate the record and may fail (`Table.Normalize`
in the Go source, passed as a parameter here). -/
abbrev NormalizeHook := Record → Record × Option String

/-- A Validate hook: validation failure carries per-field errors
(`*ValidationErrors`), other failures a plain message. -/
inductive HookErr where
  | validation (ve : List (String × String))
  | other (msg : String)
deriving DecidableEq

/-- A Validate hook (`Table.Validate` in the Go source). -/
abbrev ValidateHook := Record → Option HookErr

/-- The tail of `Record.Save` after the hooks: build the statement from the
snapshot discriminant, run it through `queryRow` scanning into the
attributes, and on success refresh the snapshot and clear the assigned
flags. -/
def Record.saveExec (r : Record) (db : GoDB) : Option SaveErr × Record :=
  let q := r.saveQuery
  let res := queryRow db q.1 q.2 r.attributes
  match res.1 with
  | some err => (some err, { r with attributes := res.2 })
  | none =>
    (none,
     { r with
       attributes := res.2
       originalAttributes := some res.2
       assigned := List.replicate r.assigned.length false })

/-- The Validate step of `Record.Save`: a `*ValidationErrors` failure is
recorded on the table before the error is returned. -/
def Record.saveValidate (r : Record) (db : GoDB) (validate : Option ValidateHook) :
    Option SaveErr × Record :=
  match validate with
  | none => r.saveExec db
  | some fn =>
    match fn r with
    | some (.validation ve) =>
      (some (.validateError "validation failed"),
       { r with table := { r.table with validationErrors := some ve } })
    | some (.other msg) => (some (.validateError msg), r)
    | none => r.saveExec db

/-- `Record.Save` from pgxrecord.go: clears `validationErrors`, runs the
Normalize hook (which may mutate the record and abort), the Validate hook
(which may abort), then executes the insert-or-update statement. -/
def Record.Save (r : Record) (db : GoDB)
    (normalize : Option NormalizeHook) (validate : Option ValidateHook) :
    Option SaveErr × Record :=
  let r0 := { r with table := { r.table with validationErrors := none } }
  match normalize with
  | none => r0.saveValidate db validate
  | some fn =>
    match fn r0 with
    | (r1, some msg) => (some (.normalizeError msg), r1)
    | (r1, none) => r1.saveValidate db validate

/-- A Go `map[string]any`, modelled as an association list whose order stands
for the (unspecified) iteration order. -/
abbrev GoMap := List (String × GoValue)

/-- Go map indexing `values[k]`: the zero value (nil) when the key is absent. -/
def mapGet (m : GoMap) (k : String) : GoValue := (m.lookup k).getD GoValue.nil

/-- Strict lexicographic byte order on character lists (UTF-8 byte order
coincides with scalar-value order, so Go's byte-wise string comparison is
character-wise comparison of the scalar values). -/
def charListLt : List Char → List Char → Bool
  | [], [] => false
  | [], _ :: _ => true
  | _ :: _, [] => false
  | a :: as, b :: bs =>
    if a.toNat < b.toNat then true
    else if b.toNat < a.toNat then false
    else charListLt as bs

/-- Go string comparison `a <= b`. -/
def strLeB (a b : String) : Bool := !(charListLt b.data a.data)

/-- One insertion step of an ascending insertion sort. -/
def insertSorted (x : String) : List String → List String
  | [] => [x]
  | y :: ys => if strLeB x y then x :: y :: ys else y :: insertSorted x ys

/-- `sort.Strings`: ascending lexicographic sort, modelled by insertion sort
(`sort.Strings` is not stable either way; the result is determined by the
multiset of keys, see `sortStrings_perm_eq`). -/
def sortStrings (l : List String) : List String :=
  l.foldr insertSorted []

/-- The table-name fragment used by the free builders: a single-part name is
sanitized directly, a multi-part name via `Identifier.Sanitize`. -/
def tableNameSQL (tableName : List String) : String :=
  if tableName.length = 1 then sanitizeIdentifier (tableName.getD 0 "")
  else identifierSanitize tableName

/-- `insertRowSQL` from pgxrecord.go: single-row insert built from a map,
keys sorted for stable output; argument `i` carries both the comma logic and
the placeholder number `i + 1`. -/
def insertRowSQL (tableName : List String) (values : GoMap) (returningClause : String) :
    String × List GoValue :=
  let keys := sortStrings (values.map Prod.fst)
  let cols := keys.foldl
    (fun (st : JoinSt) k =>
      { b := (if st.cnt > 0 then st.b ++ ", " else st.b) ++ sanitizeIdentifier k,
        cnt := st.cnt + 1 })
    { b := "", cnt := 0 }
  let vals := keys.foldl
    (fun (st : ArgsJoinSt) k =>
      { b := (if st.cnt > 0 then st.b ++ ", " else st.b) ++ ("$" ++ natStr (st.cnt + 1)),
        args := st.args ++ [mapGet values k],
        cnt := st.cnt + 1 })
    { b := "", args := [], cnt := 0 }
  let core := "insert into " ++ tableNameSQL tableName ++ " (" ++ cols.b ++
    ") values (" ++ vals.b ++ ")"
  (if returningClause ≠ "" then core ++ " returning " ++ returningClause else core,
   vals.args)

/-- State of the multi-row values loop of `insertSQL`: builder text, argument
list, the global placeholder counter, and the row index. -/
structure MultiRowSt where
  b : String
  args : List GoValue
  ph : Nat
  rowIdx : Nat

/-- `insertSQL` from pgxrecord.go: multi-row insert; keys are taken from the
first row and sorted; the placeholder counter runs across all rows. -/
def insertSQL (tableName : List String) (rows : List GoMap) (returningClause : String) :
    String × List GoValue :=
  let keys := sortStrings ((rows.getD 0 []).map Prod.fst)
  let cols := keys.foldl
    (fun (st : JoinSt) k =>
      { b := (if st.cnt > 0 then st.b ++ ", " else st.b) ++ sanitizeIdentifier k,
        cnt := st.cnt + 1 })
    { b := "", cnt := 0 }
  let st := rows.foldl
    (fun (st : MultiRowSt) values =>
      let b0 := st.b ++ (if st.rowIdx = 0 then ") values (" else "), (")
      let inner := keys.foldl
        (fun (st2 : MultiRowSt) k =>
          { b := (if st2.rowIdx > 0 then st2.b ++ ", " else st2.b) ++ ("$" ++ natStr st2.ph),
            args := st2.args ++ [mapGet values k],
            ph := st2.ph + 1,
            rowIdx := st2.rowIdx + 1 })
        { b := b0, args := st.args, ph := st.ph, rowIdx := 0 }
      { b := inner.b, args := inner.args, ph := inner.ph, rowIdx := st.rowIdx + 1 })
    { b := "insert into " ++ tableNameSQL tableName ++ " (" ++ cols.b, args := [],
      ph := 1, rowIdx := 0 }
  let core := st.b ++ ")"
  (if returningClause ≠ "" then core ++ " returning " ++ returningClause else core,
   st.args)

/-- `updateSQL` from pgxrecord.go: `set` pairs from the sorted keys of
`setValues`, then a `where` conjunction from the sorted keys of
`whereValues`; each placeholder is the argument list's length right after
appending the corresponding value. -/
def updateSQL (tableName : List String) (setValues whereValues : GoMap)
    (returningClause : String) : String × List GoValue :=
  let setKeys := sortStrings (setValues.map Prod.fst)
  let st1 := setKeys.foldl
    (fun (st : ArgsJoinSt) k =>
      { b := (if st.cnt > 0 then st.b ++ ", " else st.b) ++
          (sanitizeIdentifier k ++ (" = $" ++ natStr (st.args.length + 1))),
        args := st.args ++ [mapGet setValues k],
        cnt := st.cnt + 1 })
    { b := "", args := [], cnt := 0 }
  let st2 :=
    if whereValues.length > 0 then
      let whereKeys := sortStrings (whereValues.map Prod.fst)
      let w := whereKeys.foldl
        (fun (st : ArgsJoinSt) k =>
          { b := (if st.cnt > 0 then st.b ++ " and " else st.b) ++
              (sanitizeIdentifier k ++ (" = $" ++ natStr (st.args.length + 1))),
            args := st.args ++ [mapGet whereValues k],
            cnt := st.cnt + 1 })
        { b := "", args := st1.args, cnt := 0 }
      { b := st1.b ++ " where " ++ w.b, args := w.args, cnt := 0 : ArgsJoinSt }
    else st1
  let core := "update " ++ tableNameSQL tableName ++ " set " ++ st2.b
  (if returningClause ≠ "" then core ++ " returning " ++ returningClause else core,
   st2.args)

/-- `exec` from pgxrecord.go: `db.Query`, `rows.Close()`, then the command
tag and `rows.Err()`. -/
def exec (db : GoDB) (sql : String) (args : List GoValue) : CommandTag × Option String :=
  match db sql args with
  | .queryError e => (⟨0⟩, some e)
  | .resultRows _ tag rowsErr => (tag, rowsErr)

/-- `ExecRow` from pgxrecord.go: exactly one affected row or an error
(`pgx.ErrNoRows` on zero, `errTooManyRows` on more than one). -/
def ExecRow (db : GoDB) (sql : String) (args : List GoValue) :
    CommandTag × Option SaveErr :=
  match exec db sql args with
  | (ct, some e) => (ct, some (.queryError e))
  | (ct, none) =>
    if ct.rowsAffected = 0 then (ct, some .errNoRows)
    else if ct.rowsAffected > 1 then (ct, some .tooManyRows)
    else (ct, none)

/-- `pgx.CollectRows` over a query result: scan every row with `scanFn`,
then surface any rows-level error. -/
def CollectRows {T : Type} (qr : QueryResult) (scanFn : List GoValue → Except String T) :
    Except String (List T) :=
  match qr with
  | .queryError e => Except.error e
  | .resultRows rs _ rowsErr =>
    match rs.mapM scanFn with
    | Except.error e => Except.error e
    | Except.ok ts =>
      match rowsErr with
      | some e => Except.error e
      | none => Except.ok ts

/-- `Select` from pgxrecord.go. -/
def Select {T : Type} (db : GoDB) (sql : String) (args : List GoValue)
    (scanFn : List GoValue → Except String T) : Except String (List T) :=
  CollectRows (db sql args) scanFn

/-- `Insert` (free function) from pgxrecord.go: a zero-length `rows` slice
returns the zero command tag and no error before any statement is built or
executed. -/
def Insert (db : GoDB) (tableName : List String) (rows : List GoMap) :
    CommandTag × Option String :=
  if rows.length = 0 then (⟨0⟩, none)
  else
    let q := insertSQL tableName rows ""
    exec db q.1 q.2

/-- `InsertReturning` from pgxrecord.go: a zero-length `rows` slice returns a
nil slice and no error before any statement is built or executed. -/
def InsertReturning {T : Type} (db : GoDB) (tableName : List String) (rows : List GoMap)
    (returningClause : String) (scanFn : List GoValue → Except String T) :
    Except String (List T) :=
  if rows.length = 0 then Except.ok []
  else
    let q := insertSQL tableName rows returningClause
    Select db q.1 q.2 scanFn

/-!
Placeholder extraction. To state the parameter/placeholder-alignment
claims, the `$N` tokens of a generated SQL text are extracted in textual
order by a small character-level scanner that ignores everything inside
double-quoted identifiers (where a `$` is part of the identifier, not a
parameter reference).
-/

/-- Scanner state: `q` is the inside-double-quotes flag, `cur` is `some d`
while scanning a `$`-token (`d = some n` once at least one digit was read),
`acc` the numbers emitted so far in textual order. -/
structure PhSt where
  q : Bool
  cur : Option (Option Nat)
  acc : List Nat
deriving DecidableEq

/-- Finish a pending `$`-token, emitting its number if it had digits. -/
def phFlush (st : PhSt) : PhSt :=
  match st.cur with
  | some (some n) => { q := st.q, cur := none, acc := st.acc ++ [n] }
  | _ => { q := st.q, cur := none, acc := st.acc }

/-- Scanner transition for a character read outside a `$`-token. -/
def phBase (st : PhSt) (c : Char) : PhSt :=
  if c = '"' then { st with q := !st.q }
  else if c = '$' then (if st.q then st else { st with cur := some none })
  else st

/-- Scanner transition. -/
def phStep (st : PhSt) (c : Char) : PhSt :=
  match st.cur with
  | some d =>
    if c.isDigit then { st with cur := some (some (10 * d.getD 0 + (c.toNat - 48))) }
    else phBase (phFlush st) c
  | none => phBase st c

/-- Run the scanner over a character list. -/
def phRun (st : PhSt) (l : List Char) : PhSt := l.foldl phStep st

/-- The list of parameter placeholders `$N` occurring in a SQL text, in
textual order, ignoring the contents of double-quoted identifiers. -/
def placeholders (s : String) : List Nat :=
  (phFlush (phRun { q := false, cur := none, acc := [] } s.data)).acc

/-- Decimal value accumulated over digit characters. -/
def valFrom (m : Nat) (l : List Char) : Nat :=
  l.foldl (fun a c => 10 * a + (c.toNat - 48)) m

theorem natCharsAux_irrel : ∀ (f₁ : Nat) (f₂ n : Nat), n < f₁ → n < f₂ →
    natCharsAux f₁ n = natCharsAux f₂ n := by
  intro f₁
  induction f₁ with
  | zero => intro f₂ n h; omega
  | succ a ih =>
    intro f₂ n h₁ h₂
    match f₂, h₂ with
    | b + 1, h₂ =>
      by_cases h10 : n < 10
      · simp [natCharsAux, h10]
      · have hdiv : n / 10 < n := Nat.div_lt_self (by omega) (by omega)
        simp only [natCharsAux, if_neg h10]
        rw [ih b (n / 10) (by omega) (by omega)]

theorem natChars_unfold (n : Nat) :
    natChars n = if n < 10 then [Nat.digitChar n]
      else natChars (n / 10) ++ [Nat.digitChar (n % 10)] := by
  by_cases h10 : n < 10
  · simp [natChars, natCharsAux, h10]
  · rw [if_neg h10]
    show natCharsAux (n + 1) n = _
    rw [show natCharsAux (n + 1) n = natCharsAux n (n / 10) ++ [Nat.digitChar (n % 10)] by
      simp only [natCharsAux]; rw [if_neg h10]]
    rw [natCharsAux_irrel n (n / 10 + 1) (n / 10)
      (by have := Nat.div_lt_self (show 0 < n by omega) (show 1 < 10 by omega); omega)
      (by omega)]
    rfl

theorem digitChar_isDigit : ∀ d < 10, (Nat.digitChar d).isDigit = true := by decide

theorem digitChar_val : ∀ d < 10, (Nat.digitChar d).toNat - 48 = d := by decide

theorem digitChar_ne : ∀ d < 10, Nat.digitChar d ≠ '"' ∧ Nat.digitChar d ≠ '$' := by decide

theorem natChars_digits (n : Nat) : ∀ c ∈ natChars n, c.isDigit = true := by
  induction n using Nat.strong_induction_on with
  | _ n ih =>
    rw [natChars_unfold]
    by_cases h10 : n < 10
    · simp only [if_pos h10, List.mem_singleton]
      rintro c rfl
      exact digitChar_isDigit n h10
    · have hdiv : n / 10 < n := Nat.div_lt_self (by omega) (by omega)
      simp only [if_neg h10, List.mem_append, List.mem_singleton]
      rintro c (hc | rfl)
      · exact ih (n / 10) hdiv c hc
      · exact digitChar_isDigit (n % 10) (Nat.mod_lt _ (by omega))

theorem natChars_ne_nil (n : Nat) : natChars n ≠ [] := by
  rw [natChars_unfold]
  by_cases h10 : n < 10 <;> simp [h10]

theorem valFrom_append (m : Nat) (l₁ l₂ : List Char) :
    valFrom m (l₁ ++ l₂) = valFrom (valFrom m l₁) l₂ := by
  simp [valFrom, List.foldl_append]

theorem natChars_val (n : Nat) : valFrom 0 (natChars n) = n := by
  induction n using Nat.strong_induction_on with
  | _ n ih =>
    rw [natChars_unfold]
    by_cases h10 : n < 10
    · simp only [if_pos h10]
      simp [valFrom, digitChar_val n h10]
    · have hdiv : n / 10 < n := Nat.div_lt_self (by omega) (by omega)
      simp only [if_neg h10, valFrom_append, ih (n / 10) hdiv]
      have := digitChar_val (n % 10) (Nat.mod_lt _ (by omega))
      simp [valFrom, this]
      omega

/-! Scanner lemmas: how `phRun` consumes the building blocks of the
generated SQL. -/

theorem phRun_nil (st : PhSt) : phRun st [] = st := rfl

theorem phRun_cons (st : PhSt) (c : Char) (l : List Char) :
    phRun st (c :: l) = phRun (phStep st c) l := rfl

theorem phRun_append (st : PhSt) (l₁ l₂ : List Char) :
    phRun st (l₁ ++ l₂) = phRun (phRun st l₁) l₂ := by
  simp [phRun, List.foldl_append]

/-- Characters that are neither `"` nor `$` leave the scanner unchanged when
no `$`-token is pending. -/
theorem phRun_plain (l : List Char) (hplain : ∀ c ∈ l, c ≠ '"' ∧ c ≠ '$') :
    ∀ st : PhSt, st.cur = none → phRun st l = st := by
  induction l with
  | nil => intro st _; rfl
  | cons c l ih =>
    intro st hcur
    have hc := hplain c (by simp)
    have hrest : ∀ c ∈ l, c ≠ '"' ∧ c ≠ '$' := fun c hc => hplain c (by simp [hc])
    rw [phRun_cons]
    have : phStep st c = st := by
      cases st with
      | mk q cur acc =>
        cases hcur
        simp [phStep, phBase, hc.1, hc.2]
    rw [this, ih hrest st hcur]

/-- Inside a quoted region, any character other than `"` is skipped. -/
theorem phRun_inQuote (l : List Char) (hq : '"' ∉ l) :
    ∀ acc, phRun { q := true, cur := none, acc := acc } l =
      { q := true, cur := none, acc := acc } := by
  induction l with
  | nil => intro acc; rfl
  | cons c l ih =>
    intro acc
    have hc : c ≠ '"' := fun h => hq (by simp [h])
    have hrest : '"' ∉ l := fun h => hq (by simp [h])
    rw [phRun_cons]
    have : phStep { q := true, cur := none, acc := acc } c =
        { q := true, cur := none, acc := acc } := by
      by_cases hd : c = '$' <;> simp [phStep, phBase, hc, hd]
    rw [this, ih hrest acc]

/-- The quote-doubled body of a sanitized identifier leaves an in-quote
scanner unchanged: quotes come in adjacent pairs, toggling the flag twice. -/
theorem phRun_doubleQuotes (l : List Char) :
    ∀ acc, phRun { q := true, cur := none, acc := acc } (doubleQuotes l) =
      { q := true, cur := none, acc := acc } := by
  induction l with
  | nil => intro acc; rfl
  | cons c l ih =>
    intro acc
    by_cases hc : c = '"'
    · subst hc
      rw [show doubleQuotes ('"' :: l) = '"' :: '"' :: doubleQuotes l by
        simp [doubleQuotes]]
      rw [phRun_cons, phRun_cons]
      have h1 : phStep { q := true, cur := none, acc := acc } '"' =
          { q := false, cur := none, acc := acc } := by simp [phStep, phBase]
      have h2 : phStep { q := false, cur := none, acc := acc } '"' =
          { q := true, cur := none, acc := acc } := by simp [phStep, phBase]
      rw [h1, h2, ih acc]
    · rw [show doubleQuotes (c :: l) = c :: doubleQuotes l by simp [doubleQuotes, hc]]
      rw [phRun_cons]
      have : phStep { q := true, cur := none, acc := acc } c =
          { q := true, cur := none, acc := acc } := by
        by_cases hd : c = '$' <;> simp [phStep, phBase, hc, hd]
      rw [this, ih acc]

/-- A sanitized identifier contributes no placeholders and returns the
scanner to its entry state. -/
theorem phRun_sanitized (s : String) (q : Bool) (acc : List Nat) :
    q = false → phRun { q := q, cur := none, acc := acc } (sanitizeChars s) =
      { q := false, cur := none, acc := acc } := by
  rintro rfl
  simp only [sanitizeChars]
  rw [phRun_cons]
  have h1 : phStep { q := false, cur := none, acc := acc } '"' =
      { q := true, cur := none, acc := acc } := by simp [phStep, phBase]
  rw [h1, phRun_append, phRun_doubleQuotes _ acc, phRun_cons]
  rfl

/-- Reading a run of digit characters accumulates their value. -/
theorem phRun_digits (l : List Char) (hdig : ∀ c ∈ l, c.isDigit = true) :
    ∀ (q : Bool) (m : Nat) (acc : List Nat),
      phRun { q := q, cur := some (some m), acc := acc } l =
      { q := q, cur := some (some (valFrom m l)), acc := acc } := by
  induction l with
  | nil => intro q m acc; rfl
  | cons c l ih =>
    intro q m acc
    have hc := hdig c (by simp)
    have hrest : ∀ c ∈ l, c.isDigit = true := fun c hc => hdig c (by simp [hc])
    rw [phRun_cons]
    have : phStep { q := q, cur := some (some m), acc := acc } c =
        { q := q, cur := some (some (10 * m + (c.toNat - 48))), acc := acc } := by
      simp [phStep, hc]
    rw [this, ih hrest]
    simp [valFrom]

/-- A `$` followed by the decimal numeral of `n` leaves the scanner holding
the pending number `n`. -/
theorem phRun_numToken (n : Nat) (q : Bool) (acc : List Nat) (hq : q = false) :
    phRun { q := q, cur := none, acc := acc } ('$' :: natChars n) =
    { q := false, cur := some (some n), acc := acc } := by
  cases hq
  rw [phRun_cons]
  have h1 : phStep { q := false, cur := none, acc := acc } '$' =
      { q := false, cur := some none, acc := acc } := by simp [phStep, phBase]
  rw [h1]
  cases hnc : natChars n with
  | nil => exact absurd hnc (natChars_ne_nil n)
  | cons c cs =>
    have hdig : ∀ x ∈ natChars n, x.isDigit = true := natChars_digits n
    have hc : c.isDigit = true := hdig c (by simp [hnc])
    have hcs : ∀ x ∈ cs, x.isDigit = true := fun x hx => hdig x (by simp [hnc, hx])
    rw [phRun_cons]
    have : phStep { q := false, cur := some none, acc := acc } c =
        { q := false, cur := some (some (c.toNat - 48)), acc := acc } := by
      simp [phStep, hc, Option.getD]
    rw [this, phRun_digits cs hcs]
    have : valFrom (c.toNat - 48) cs = n := by
      have := natChars_val n
      rw [hnc] at this
      simpa [valFrom] using this
    rw [this]

/-- When a non-digit character follows a pending `$`-token, scanning is the
same as flushing the token first. -/
theorem phRun_flushCons (st : PhSt) (c : Char) (l : List Char)
    (hd : st.cur.isSome) (hc : c.isDigit = false) :
    phRun st (c :: l) = phRun (phFlush st) (c :: l) := by
  rw [phRun_cons, phRun_cons]
  congr 1
  match st, hd with
  | { q := q, cur := some d, acc := acc }, _ =>
    have : phFlush { q := q, cur := some d, acc := acc } =
        { q := q, cur := none, acc := acc ++ (match d with | some n => [n] | none => []) } := by
      cases d <;> simp [phFlush]
    simp only [phStep, hc]
    rw [this]
    cases d <;> simp [phStep, phBase]

/-- A complete placeholder token followed by a non-digit character: the
number is emitted and scanning continues. -/
theorem phRun_num_then (n : Nat) (acc : List Nat) (c : Char) (l : List Char)
    (hc : c.isDigit = false) :
    phRun { q := false, cur := none, acc := acc } (('$' :: natChars n) ++ (c :: l)) =
    phRun { q := false, cur := none, acc := acc ++ [n] } (c :: l) := by
  rw [phRun_append, phRun_numToken n false acc rfl, phRun_flushCons _ c l (by simp) hc]
  rfl

/-!
Closed forms for the string-building loops. The builders are literal
translations of the Go loops (counter-driven separators); here they are
proved equal to explicit join expressions, which the claims are then
stated against.
-/

/-- The text produced by a separator loop entered with counter `c`. -/
def glue (sep : String) : Nat → List String → String
  | _, [] => ""
  | c, x :: xs => (if c > 0 then sep else "") ++ (x ++ glue sep (c + 1) xs)

/-- Pieces generated by a loop whose text depends on the running counter. -/
def numbered {α : Type} (f : α → Nat → String) : Nat → List α → List String
  | _, [] => []
  | c, x :: xs => f x c :: numbered f (c + 1) xs

/-- Pieces generated by a loop whose text depends on the running counter and
on the length of the argument list accumulated so far. -/
def numberedArgs {α : Type} (f : α → Nat → Nat → String) : Nat → Nat → List α → List String
  | _, _, [] => []
  | c, a, x :: xs => f x c a :: numberedArgs f (c + 1) (a + 1) xs

/-- Placeholder tokens `$start, $(start+1), ...`. -/
def phList (start k : Nat) : List String :=
  (List.range' start k).map (fun n => "$" ++ natStr n)

/-- `name = $n` pairs with `n` counting on from `a + 1`. -/
def setPairs {α : Type} (nm : α → String) : Nat → List α → List String
  | _, [] => []
  | a, x :: xs => (nm x ++ (" = $" ++ natStr (a + 1))) :: setPairs nm (a + 1) xs

theorem glue_succ (sep : String) : ∀ (xs : List String) (c : Nat),
    glue sep (c + 1) xs = sepAll sep xs := by
  intro xs
  induction xs with
  | nil => intro c; rfl
  | cons x xs ih =>
    intro c
    simp only [glue, sepAll, ih (c + 1)]
    simp

theorem glue_zero (sep : String) (xs : List String) :
    glue sep 0 xs = commaJoin sep xs := by
  cases xs with
  | nil => rfl
  | cons x xs =>
    simp only [glue, commaJoin, glue_succ]
    simp

theorem numbered_const {α : Type} (h : α → String) :
    ∀ (l : List α) (c : Nat), numbered (fun x _ => h x) c l = l.map h := by
  intro l
  induction l with
  | nil => intro c; rfl
  | cons x xs ih => intro c; simp [numbered, ih]

theorem numbered_setPairs {α : Type} (nm : α → String) :
    ∀ (l : List α) (c : Nat),
      numbered (fun x c => nm x ++ (" = $" ++ natStr (c + 1))) c l = setPairs nm c l := by
  intro l
  induction l with
  | nil => intro c; rfl
  | cons x xs ih => intro c; simp [numbered, setPairs, ih]

theorem numberedArgs_ph : ∀ {α : Type} (l : List α) (c a : Nat),
    numberedArgs (fun _ c _ => "$" ++ natStr (c + 1)) c a l = phList (c + 1) l.length := by
  intro α l
  induction l with
  | nil => intro c a; rfl
  | cons x xs ih =>
    intro c a
    simp only [numberedArgs, ih, phList, List.length_cons, List.range'_succ, List.map_cons]

theorem numberedArgs_setPairs {α : Type} (nm : α → String) :
    ∀ (l : List α) (c a : Nat),
      numberedArgs (fun x _ a => nm x ++ (" = $" ++ natStr (a + 1))) c a l =
        setPairs nm a l := by
  intro l
  induction l with
  | nil => intro c a; rfl
  | cons x xs ih => intro c a; simp [numberedArgs, setPairs, ih]

theorem ifSep (b sep : String) (c : Nat) :
    (if c > 0 then b ++ sep else b) = b ++ (if c > 0 then sep else "") := by
  split <;> simp

/-- Closed form of a counter-driven separator loop without filtering. -/
theorem joinFoldAll_eq {α : Type} (sep : String) (f : α → Nat → String) :
    ∀ (l : List α) (st : JoinSt),
      l.foldl (fun st x =>
        { b := (if st.cnt > 0 then st.b ++ sep else st.b) ++ f x st.cnt,
          cnt := st.cnt + 1 }) st =
      { b := st.b ++ glue sep st.cnt (numbered f st.cnt l),
        cnt := st.cnt + l.length } := by
  intro l
  induction l with
  | nil => intro st; simp [glue, numbered]
  | cons x xs ih =>
    intro st
    simp only [List.foldl_cons, ih, numbered, glue, List.length_cons]
    simp only [JoinSt.mk.injEq]
    constructor
    · rw [ifSep]
      simp [String.append_assoc]
    · omega

/-- Closed form of a counter-driven separator loop filtered by `p`. -/
theorem joinFold_eq {α : Type} (sep : String) (p : α → Bool) (f : α → Nat → String) :
    ∀ (l : List α) (st : JoinSt),
      l.foldl (fun st x =>
        if p x then
          { b := (if st.cnt > 0 then st.b ++ sep else st.b) ++ f x st.cnt,
            cnt := st.cnt + 1 }
        else st) st =
      { b := st.b ++ glue sep st.cnt (numbered f st.cnt (l.filter p)),
        cnt := st.cnt + (l.filter p).length } := by
  intro l
  induction l with
  | nil => intro st; simp [glue, numbered]
  | cons x xs ih =>
    intro st
    by_cases hp : p x
    · simp only [List.foldl_cons, if_pos hp, ih, List.filter_cons_of_pos hp, numbered, glue,
        List.length_cons]
      simp only [JoinSt.mk.injEq]
      constructor
      · rw [ifSep]
        simp [String.append_assoc]
      · omega
    · simp only [List.foldl_cons, if_neg hp, ih, List.filter_cons_of_neg hp]

/-- Closed form of an argument-appending separator loop without filtering. -/
theorem argsJoinFoldAll_eq {α : Type} (sep : String) (f : α → Nat → Nat → String)
    (g : α → GoValue) :
    ∀ (l : List α) (st : ArgsJoinSt),
      l.foldl (fun st x =>
        { b := (if st.cnt > 0 then st.b ++ sep else st.b) ++ f x st.cnt st.args.length,
          args := st.args ++ [g x],
          cnt := st.cnt + 1 }) st =
      { b := st.b ++ glue sep st.cnt (numberedArgs f st.cnt st.args.length l),
        args := st.args ++ l.map g,
        cnt := st.cnt + l.length } := by
  intro l
  induction l with
  | nil => intro st; simp [glue, numberedArgs]
  | cons x xs ih =>
    intro st
    simp only [List.foldl_cons, ih, numberedArgs, glue, List.length_cons, List.map_cons,
      List.length_append, List.length_singleton]
    simp only [ArgsJoinSt.mk.injEq]
    refine ⟨?_, ?_, by omega⟩
    · rw [ifSep]
      simp [String.append_assoc]
    · simp

/-- Closed form of an argument-appending separator loop filtered by `p`. -/
theorem argsJoinFold_eq {α : Type} (sep : String) (p : α → Bool) (f : α → Nat → Nat → String)
    (g : α → GoValue) :
    ∀ (l : List α) (st : ArgsJoinSt),
      l.foldl (fun st x =>
        if p x then
          { b := (if st.cnt > 0 then st.b ++ sep else st.b) ++ f x st.cnt st.args.length,
            args := st.args ++ [g x],
            cnt := st.cnt + 1 }
        else st) st =
      { b := st.b ++ glue sep st.cnt
          (numberedArgs f st.cnt st.args.length (l.filter p)),
        args := st.args ++ (l.filter p).map g,
        cnt := st.cnt + (l.filter p).length } := by
  intro l
  induction l with
  | nil => intro st; simp [glue, numberedArgs]
  | cons x xs ih =>
    intro st
    by_cases hp : p x
    · simp only [List.foldl_cons, if_pos hp, ih, List.filter_cons_of_pos hp, numberedArgs, glue,
        List.length_cons, List.map_cons, List.length_append, List.length_singleton]
      simp only [ArgsJoinSt.mk.injEq]
      refine ⟨?_, ?_, by omega⟩
      · rw [ifSep]
        simp [String.append_assoc]
      · simp
    · simp only [List.foldl_cons, if_neg hp, ih, List.filter_cons_of_neg hp]

theorem foldl_append_map {α : Type} (h : α → GoValue) :
    ∀ (l : List α) (acc : List GoValue),
      l.foldl (fun acc x => acc ++ [h x]) acc = acc ++ l.map h := by
  intro l
  induction l with
  | nil => intro acc; simp
  | cons x xs ih => intro acc; simp [ih]

/-- The indices of the assigned columns, in column order. -/
def Record.assignedIdxs (r : Record) : List Nat :=
  (List.range r.assigned.length).filter (fun i => r.assigned.getD i false)

/-- Closed form of `Record.insert`: the column list is exactly the assigned
columns in column order, the placeholders are `$1..$k` in that same order,
and the arguments are the corresponding attribute values. -/
theorem Record.insert_eq (r : Record) :
    r.insert =
      ("insert into " ++ r.table.quotedQualifiedName ++ " (" ++
        commaJoin ", " (r.assignedIdxs.map r.table.colQuotedName) ++ ") values (" ++
        commaJoin ", " (phList 1 r.assignedIdxs.length) ++ ") " ++
        r.table.returningClause,
       r.assignedIdxs.map (fun i => r.attributes.getD i GoValue.nil)) := by
  have hidx : (List.range r.assigned.length).filter (fun i => r.assigned.getD i false) =
      r.assignedIdxs := rfl
  simp only [Record.insert]
  rw [joinFold_eq ", " (fun i => r.assigned.getD i false) (fun i _ => r.table.colQuotedName i)]
  rw [argsJoinFold_eq ", " (fun i => r.assigned.getD i false)
    (fun _ c _ => "$" ++ natStr (c + 1)) (fun i => r.attributes.getD i GoValue.nil)]
  simp only [hidx, numberedArgs_ph, glue_zero, numbered_const]
  simp

/-- Closed form of `Record.update`: the primary-key values come first in the
argument list, the SET pairs cover exactly the assigned columns (in column
order, primary-key columns not excluded), numbered from the primary-key
count upward. -/
theorem Record.update_eq (r : Record) :
    r.update =
      ("update " ++ r.table.quotedQualifiedName ++ " set " ++
        commaJoin ", "
          (setPairs r.table.colQuotedName r.table.pkIndexes.length r.assignedIdxs) ++
        " " ++ r.table.pkWhereClause ++ " " ++ r.table.returningClause,
       r.table.pkIndexes.map (fun i => r.attributes.getD i GoValue.nil) ++
         r.assignedIdxs.map (fun i => r.attributes.getD i GoValue.nil)) := by
  have hidx : (List.range r.assigned.length).filter (fun i => r.assigned.getD i false) =
      r.assignedIdxs := rfl
  simp only [Record.update]
  rw [foldl_append_map (fun i => r.attributes.getD i GoValue.nil) r.table.pkIndexes]
  rw [argsJoinFold_eq ", " (fun i => r.assigned.getD i false)
    (fun i _ a => r.table.colQuotedName i ++ (" = $" ++ natStr (a + 1)))
    (fun i => r.attributes.getD i GoValue.nil)]
  simp only [hidx, numberedArgs_setPairs, glue_zero, List.nil_append, List.length_map]
  simp

/-- Closed form of `buildPKWhereClause`. -/
theorem buildPKWhereClause_eq (cols : List Column) (pkIdxs : List Nat) :
    buildPKWhereClause cols pkIdxs =
      "where " ++ commaJoin " and "
        (setPairs (fun i => (cols.getD i default).quotedName) 0 pkIdxs) := by
  simp only [buildPKWhereClause]
  rw [joinFoldAll_eq " and "
    (fun idx c => (cols.getD idx default).quotedName ++ (" = $" ++ natStr (c + 1)))]
  rw [numbered_setPairs (fun i => (cols.getD i default).quotedName)]
  simp [glue_zero]

/-- Closed form of `buildReturningClause`. -/
theorem buildReturningClause_eq (cols : List Column) :
    buildReturningClause cols =
      "returning " ++ commaJoin ", " (cols.map Column.quotedName) := by
  simp only [buildReturningClause]
  rw [joinFoldAll_eq ", " (fun (c : Column) _ => c.quotedName)]
  rw [numbered_const Column.quotedName]
  simp [glue_zero]

/-- The body shared by `insertRowSQL`'s closed form. -/
def insertRowCore (tableName : List String) (keys : List String) : String :=
  "insert into " ++ tableNameSQL tableName ++ " (" ++
    commaJoin ", " (keys.map sanitizeIdentifier) ++ ") values (" ++
    commaJoin ", " (phList 1 keys.length) ++ ")"

/-- Closed form of `insertRowSQL`: the emitted key order is the sorted key
list, placeholders are `$1..$k` in that order, and the arguments are the
map's values in sorted-key order. -/
theorem insertRowSQL_eq (tableName : List String) (values : GoMap) (ret : String) :
    insertRowSQL tableName values ret =
      (if ret ≠ "" then
          insertRowCore tableName (sortStrings (values.map Prod.fst)) ++ " returning " ++ ret
        else insertRowCore tableName (sortStrings (values.map Prod.fst)),
       (sortStrings (values.map Prod.fst)).map (mapGet values)) := by
  simp only [insertRowSQL]
  rw [joinFoldAll_eq ", " (fun k _ => sanitizeIdentifier k)]
  rw [argsJoinFoldAll_eq ", " (fun _ c _ => "$" ++ natStr (c + 1)) (mapGet values)]
  rw [numbered_const sanitizeIdentifier]
  simp only [numberedArgs_ph, glue_zero, insertRowCore]
  simp

/-- Closed form of `updateSQL`: SET pairs from the sorted keys of
`setValues` numbered `$1..$m`, WHERE pairs from the sorted keys of
`whereValues` numbered `$(m+1)...`, arguments in exactly that order. -/
theorem updateSQL_eq (tableName : List String) (sv wv : GoMap) (ret : String) :
    updateSQL tableName sv wv ret =
      (if ret ≠ "" then
          "update " ++ tableNameSQL tableName ++ " set " ++
            (if wv.length > 0 then
              commaJoin ", " (setPairs sanitizeIdentifier 0 (sortStrings (sv.map Prod.fst))) ++
                (" where " ++ commaJoin " and "
                  (setPairs sanitizeIdentifier (sortStrings (sv.map Prod.fst)).length
                    (sortStrings (wv.map Prod.fst))))
            else commaJoin ", " (setPairs sanitizeIdentifier 0 (sortStrings (sv.map Prod.fst)))) ++
            " returning " ++ ret
        else
          "update " ++ tableNameSQL tableName ++ " set " ++
            (if wv.length > 0 then
              commaJoin ", " (setPairs sanitizeIdentifier 0 (sortStrings (sv.map Prod.fst))) ++
                (" where " ++ commaJoin " and "
                  (setPairs sanitizeIdentifier (sortStrings (sv.map Prod.fst)).length
                    (sortStrings (wv.map Prod.fst))))
            else commaJoin ", " (setPairs sanitizeIdentifier 0 (sortStrings (sv.map Prod.fst)))),
       (sortStrings (sv.map Prod.fst)).map (mapGet sv) ++
         (sortStrings (wv.map Prod.fst)).map (mapGet wv)) := by
  simp only [updateSQL]
  rw [argsJoinFoldAll_eq ", " (fun k _ a => sanitizeIdentifier k ++ (" = $" ++ natStr (a + 1)))
    (mapGet sv)]
  by_cases hw : wv.length > 0
  · simp only [if_pos hw]
    rw [argsJoinFoldAll_eq " and "
      (fun k _ a => sanitizeIdentifier k ++ (" = $" ++ natStr (a + 1))) (mapGet wv)]
    simp only [numberedArgs_setPairs, glue_zero, List.nil_append, List.length_map]
    simp [String.append_assoc]
  · have : wv = [] := List.eq_nil_of_length_eq_zero (by omega)
    subst this
    simp only [if_neg hw]
    simp only [numberedArgs_setPairs, glue_zero, List.nil_append]
    simp [sortStrings, List.insertionSort]

/-- Closed form of the per-row values loop of `insertSQL`. -/
theorem multiInner_eq (values : GoMap) :
    ∀ (keys : List String) (st : MultiRowSt),
      keys.foldl (fun (st2 : MultiRowSt) k =>
        { b := (if st2.rowIdx > 0 then st2.b ++ ", " else st2.b) ++ ("$" ++ natStr st2.ph),
          args := st2.args ++ [mapGet values k],
          ph := st2.ph + 1,
          rowIdx := st2.rowIdx + 1 }) st =
      { b := st.b ++ glue ", " st.rowIdx (phList st.ph keys.length),
        args := st.args ++ keys.map (mapGet values),
        ph := st.ph + keys.length,
        rowIdx := st.rowIdx + keys.length } := by
  intro keys
  induction keys with
  | nil => intro st; simp [glue, phList]
  | cons k ks ih =>
    intro st
    simp only [List.foldl_cons, ih, List.length_cons, phList, List.range'_succ, List.map_cons,
      glue, List.map_map]
    simp only [MultiRowSt.mk.injEq]
    refine ⟨?_, by simp [phList, List.map_map], by omega, by omega⟩
    rw [ifSep]
    simp [String.append_assoc, phList, List.map_map]

/-- The `) values (...), (...)` section emitted by `insertSQL` for the given
rows, with `k` columns per row, placeholders starting at `ph`. -/
def valuesChunk (k : Nat) : Nat → Nat → List GoMap → String
  | _, _, [] => ""
  | ph, rowIdx, _ :: vs =>
    (if rowIdx = 0 then ") values (" else "), (") ++
      (commaJoin ", " (phList ph k) ++ valuesChunk k (ph + k) (rowIdx + 1) vs)

/-- Closed form of the rows loop of `insertSQL`. -/
theorem multiOuter_eq (keys : List String) :
    ∀ (rows : List GoMap) (st : MultiRowSt),
      rows.foldl (fun (st : MultiRowSt) values =>
        let b0 := st.b ++ (if st.rowIdx = 0 then ") values (" else "), (")
        let inner := keys.foldl
          (fun (st2 : MultiRowSt) k =>
            { b := (if st2.rowIdx > 0 then st2.b ++ ", " else st2.b) ++ ("$" ++ natStr st2.ph),
              args := st2.args ++ [mapGet values k],
              ph := st2.ph + 1,
              rowIdx := st2.rowIdx + 1 })
          { b := b0, args := st.args, ph := st.ph, rowIdx := 0 }
        { b := inner.b, args := inner.args, ph := inner.ph, rowIdx := st.rowIdx + 1 }) st =
      { b := st.b ++ valuesChunk keys.length st.ph st.rowIdx rows,
        args := st.args ++ rows.flatMap (fun v => keys.map (mapGet v)),
        ph := st.ph + rows.length * keys.length,
        rowIdx := st.rowIdx + rows.length } := by
  intro rows
  induction rows with
  | nil => intro st; simp [valuesChunk]
  | cons v vs ih =>
    intro st
    simp only [List.foldl_cons]
    rw [multiInner_eq v keys]
    simp only [ih, valuesChunk, List.flatMap_cons, List.length_cons, Nat.succ_mul]
    simp only [MultiRowSt.mk.injEq]
    refine ⟨?_, by simp, by omega, by omega⟩
    simp [glue_zero, String.append_assoc]

/-- The body shared by `insertSQL`'s closed form. -/
def insertCore (tableName : List String) (keys : List String) (rows : List GoMap) : String :=
  "insert into " ++ tableNameSQL tableName ++ " (" ++
    commaJoin ", " (keys.map sanitizeIdentifier) ++ valuesChunk keys.length 1 0 rows ++ ")"

/-- Closed form of `insertSQL`: keys from the first row, sorted; one values
group per row; the placeholder counter runs `$1, $2, ...` left to right
across all rows; arguments row by row in sorted-key order. -/
theorem insertSQL_eq (tableName : List String) (rows : List GoMap) (ret : String) :
    insertSQL tableName rows ret =
      (if ret ≠ "" then
          insertCore tableName (sortStrings ((rows.getD 0 []).map Prod.fst)) rows ++
            " returning " ++ ret
        else insertCore tableName (sortStrings ((rows.getD 0 []).map Prod.fst)) rows,
       rows.flatMap (fun v => (sortStrings ((rows.getD 0 []).map Prod.fst)).map (mapGet v))) := by
  simp only [insertSQL]
  rw [joinFoldAll_eq ", " (fun k _ => sanitizeIdentifier k)]
  rw [multiOuter_eq (sortStrings ((rows.getD 0 []).map Prod.fst)) rows]
  rw [numbered_const sanitizeIdentifier]
  simp only [insertCore]
  simp [glue_zero, String.append_assoc]

/-!
Well-formedness of finalized tables and of the records they produce; these
are the facts about the cached derived fields that `finalize` establishes.
-/

/-- A table whose derived fields were computed by `finalize`. -/
def Table.WF (t : Table) : Prop :=
  (∀ c ∈ t.Columns, c.quotedName = sanitizeIdentifier c.Name) ∧
  t.quotedQualifiedName = identifierSanitize t.Name ∧
  t.returningClause = buildReturningClause t.Columns ∧
  t.pkWhereClause = buildPKWhereClause t.Columns t.pkIndexes ∧
  (∀ i ∈ t.pkIndexes, i < t.Columns.length)

/-- A record whose slices are aligned with its table's columns. -/
def Record.WF (r : Record) : Prop :=
  r.table.WF ∧ r.attributes.length = r.table.Columns.length ∧
  r.assigned.length = r.table.Columns.length

theorem Table.finalize_WF (t : Table) : t.finalize.WF := by
  refine ⟨?_, rfl, rfl, rfl, ?_⟩
  · intro c hc
    simp only [Table.finalize] at hc
    rw [List.mem_map] at hc
    obtain ⟨c₀, _, rfl⟩ := hc
    rfl
  · intro i hi
    simp only [Table.finalize] at hi ⊢
    have := (List.mem_filter.mp hi).1
    simpa using List.mem_range.mp this

theorem Table.finalize_finalized (t : Table) : t.finalize.finalized = true := rfl

theorem Table.NewRecord_WF (t : Table) (h : t.finalized = false) : t.NewRecord.WF := by
  simp only [Table.NewRecord, h]
  exact ⟨Table.finalize_WF t, by simp, by simp⟩

theorem Table.NewRecord_of_finalized (t : Table) (h : t.finalized = true) :
    t.NewRecord =
      { table := t
        originalAttributes := none
        attributes := List.replicate t.Columns.length GoValue.nil
        assigned := List.replicate t.Columns.length false } := by
  simp [Table.NewRecord, h]

theorem Table.RowToRecord_WF (t : Table) (row : List GoValue) (r : Record)
    (h : t.finalized = false) (hr : t.RowToRecord row = .ok r) : r.WF := by
  unfold Table.RowToRecord at hr
  rw [h] at hr
  simp only [Bool.false_eq_true, if_false] at hr
  rw [Table.NewRecord_of_finalized t.finalize (Table.finalize_finalized t)] at hr
  simp only [List.length_replicate] at hr
  split at hr
  · rename_i hlen
    cases hr
    exact ⟨Table.finalize_WF t, by simpa using hlen, by simp⟩
  · cases hr

/-!
Neutral and emitting SQL fragments. A fragment is neutral when the scanner
passes through it unchanged; it emits `ns` when the scanner appends exactly
`ns` to its output and is reset, for any following non-digit character.
-/

/-- The scanner passes through `s` unchanged (entered outside quotes with no
pending token). -/
def PhNeutral (s : String) : Prop :=
  ∀ st : PhSt, st.q = false → st.cur = none → phRun st s.data = st

/-- Scanning `s` followed by a non-digit character emits exactly `ns`. -/
def PhEmits (s : String) (ns : List Nat) : Prop :=
  ∀ (st : PhSt) (c : Char) (l : List Char), st.q = false → st.cur = none →
    c.isDigit = false →
    phRun st (s.data ++ c :: l) =
      phRun { q := false, cur := none, acc := st.acc ++ ns } (c :: l)

theorem phNeutral_plain (s : String) (h : ∀ c ∈ s.data, c ≠ '"' ∧ c ≠ '$') :
    PhNeutral s := fun st hq hc => phRun_plain s.data h st hc

theorem phNeutral_empty : PhNeutral "" := fun st _ _ => rfl

theorem phNeutral_append {s t : String} (hs : PhNeutral s) (ht : PhNeutral t) :
    PhNeutral (s ++ t) := by
  intro st hq hc
  rw [String.data_append, phRun_append, hs st hq hc, ht st hq hc]

theorem phNeutral_sanitize (s : String) : PhNeutral (sanitizeIdentifier s) := by
  intro st hq hc
  have : (sanitizeIdentifier s).data = sanitizeChars s := rfl
  rw [this]
  cases st with
  | mk q cur acc =>
    cases hq; cases hc
    exact phRun_sanitized s false acc rfl

theorem phNeutral_sepAll (sep : String) (hsep : PhNeutral sep) :
    ∀ l : List String, (∀ x ∈ l, PhNeutral x) → PhNeutral (sepAll sep l) := by
  intro l
  induction l with
  | nil => intro _; exact phNeutral_empty
  | cons x xs ih =>
    intro h
    have hx := h x (by simp)
    have hxs := ih (fun y hy => h y (by simp [hy]))
    exact phNeutral_append hsep (phNeutral_append hx hxs)

theorem phNeutral_commaJoin (sep : String) (hsep : PhNeutral sep)
    (l : List String) (h : ∀ x ∈ l, PhNeutral x) : PhNeutral (commaJoin sep l) := by
  cases l with
  | nil => exact phNeutral_empty
  | cons x xs =>
    exact phNeutral_append (h x (by simp))
      (phNeutral_sepAll sep hsep xs (fun y hy => h y (by simp [hy])))

theorem phNeutral_identifierSanitize (parts : List String) :
    PhNeutral (identifierSanitize parts) := by
  refine phNeutral_commaJoin "." (phNeutral_plain "." (by decide)) _ ?_
  intro x hx
  rw [List.mem_map] at hx
  obtain ⟨p, _, rfl⟩ := hx
  exact phNeutral_sanitize p

theorem phNeutral_tableNameSQL (tableName : List String) :
    PhNeutral (tableNameSQL tableName) := by
  unfold tableNameSQL
  split
  · exact phNeutral_sanitize _
  · exact phNeutral_identifierSanitize _

/-- A neutral fragment between the scanner and an emitting fragment. -/
theorem phEmits_neutral_left {s t : String} {ns : List Nat}
    (hs : PhNeutral s) (ht : PhEmits t ns) : PhEmits (s ++ t) ns := by
  intro st c l hq hc hcd
  rw [String.data_append, List.append_assoc, phRun_append, hs st hq hc]
  exact ht st c l hq hc hcd

theorem phEmits_of_neutral {s : String} (hs : PhNeutral s) : PhEmits s [] := by
  intro st c l hq hc hcd
  rw [phRun_append, hs st hq hc]
  cases st with
  | mk q cur acc => cases hq; cases hc; simp

/-- Two emitting fragments in sequence, the second starting with a known
non-digit character. -/
theorem phEmits_append {s t : String} {ns ms : List Nat}
    (hs : PhEmits s ns) (ht : PhEmits t ms)
    (hhead : ∃ c2 l2, t.data = c2 :: l2 ∧ c2.isDigit = false) :
    PhEmits (s ++ t) (ns ++ ms) := by
  intro st c l hq hc hcd
  obtain ⟨c2, l2, hdata, hc2⟩ := hhead
  rw [String.data_append, List.append_assoc]
  have hsplit : t.data ++ c :: l = c2 :: (l2 ++ c :: l) := by rw [hdata]; rfl
  rw [hsplit, hs st c2 (l2 ++ c :: l) hq hc hc2, ← hsplit,
    ht { q := false, cur := none, acc := st.acc ++ ns } c l rfl rfl hcd]
  simp

/-- An emitting fragment followed by a neutral one. -/
theorem phEmits_neutral_right {s t : String} {ns : List Nat}
    (hs : PhEmits s ns) (ht : PhNeutral t)
    (hhead : ∃ c2 l2, t.data = c2 :: l2 ∧ c2.isDigit = false) :
    PhEmits (s ++ t) ns := by
  have := phEmits_append hs (phEmits_of_neutral ht) hhead
  simpa using this

/-- A single `$n` token emits `n`. -/
theorem phEmits_num (n : Nat) : PhEmits ("$" ++ natStr n) [n] := by
  intro st c l hq hc hcd
  have hdata : ("$" ++ natStr n).data = '$' :: natChars n := by
    rw [String.data_append]; rfl
  rw [hdata]
  cases st with
  | mk q cur acc =>
    cases hq; cases hc
    exact phRun_num_then n acc c l hcd

theorem sepAll_cons (sep y : String) (ys : List String) :
    sepAll sep (y :: ys) = sep ++ commaJoin sep (y :: ys) := by
  simp [sepAll, commaJoin, String.append_assoc]

theorem commaJoin_cons (sep x : String) (xs : List String) :
    commaJoin sep (x :: xs) = x ++ sepAll sep xs := rfl

/-- The joined placeholder list `$a, $(a+1), ...` emits `a, a+1, ...`. -/
theorem phEmits_phJoin : ∀ (k a : Nat), PhEmits (commaJoin ", " (phList a k)) (List.range' a k) := by
  intro k
  induction k with
  | zero => intro a; simpa [phList, commaJoin] using phEmits_of_neutral phNeutral_empty
  | succ k ih =>
    intro a
    cases k with
    | zero =>
      have h1 : commaJoin ", " (phList a 1) = "$" ++ natStr a := by
        simp [phList, List.range'_succ, commaJoin, sepAll]
      rw [h1, show List.range' a 1 = [a] by simp [List.range'_succ]]
      exact phEmits_num a
    | succ k' =>
      have e2 : phList (a + 1) (k' + 1) = ("$" ++ natStr (a + 1)) :: phList (a + 2) k' := by
        simp [phList, List.range'_succ]
      have h1 : commaJoin ", " (phList a (k' + 1 + 1)) =
          ("$" ++ natStr a) ++ (", " ++ commaJoin ", " (phList (a + 1) (k' + 1))) := by
        rw [show phList a (k' + 1 + 1) = ("$" ++ natStr a) :: phList (a + 1) (k' + 1) by
          simp [phList, List.range'_succ]]
        rw [commaJoin_cons, e2, sepAll_cons, ← e2]
      rw [h1]
      have step : PhEmits (", " ++ commaJoin ", " (phList (a + 1) (k' + 1)))
          (List.range' (a + 1) (k' + 1)) :=
        phEmits_neutral_left (phNeutral_plain ", " (by decide)) (ih (a + 1))
      have hhead : ∃ c2 l2,
          (", " ++ commaJoin ", " (phList (a + 1) (k' + 1))).data = c2 :: l2 ∧
            c2.isDigit = false := by
        refine ⟨',', ' ' :: (commaJoin ", " (phList (a + 1) (k' + 1))).data, ?_, by decide⟩
        rw [String.data_append]
        rfl
      have hfin := phEmits_append (phEmits_num a) step hhead
      rw [show List.range' a (k' + 1 + 1) = a :: List.range' (a + 1) (k' + 1) by
        rw [List.range'_succ]]
      simpa using hfin

/-- Without a `$`, a fragment can toggle quoting but neither emits nor
leaves a pending token. -/
theorem phRun_noDollar : ∀ (l : List Char), '$' ∉ l → ∀ st : PhSt, st.cur = none →
    ∃ q', phRun st l = { q := q', cur := none, acc := st.acc } := by
  intro l
  induction l with
  | nil => intro _ st hc; exact ⟨st.q, by cases st; cases hc; rfl⟩
  | cons c cs ih =>
    intro h st hc
    have hc' : c ≠ '$' := fun he => h (by simp [he])
    have hrest : '$' ∉ cs := fun he => h (by simp [he])
    rw [phRun_cons]
    by_cases hq : c = '"'
    · have hstep : phStep st c = { q := !st.q, cur := none, acc := st.acc } := by
        cases st with
        | mk q cur acc => cases hc; simp [phStep, phBase, hq]
      rw [hstep]
      exact ih hrest _ rfl
    · have hstep : phStep st c = st := by
        cases st with
        | mk q cur acc => cases hc; simp [phStep, phBase, hq, hc']
      rw [hstep]
      exact ih hrest st hc

/-- Scanning `s` from a clean state and flushing appends exactly `ns`. -/
def PhEnds (s : String) (ns : List Nat) : Prop :=
  ∀ st : PhSt, st.q = false → st.cur = none →
    (phFlush (phRun st s.data)).acc = st.acc ++ ns

theorem placeholders_ends {s : String} {ns : List Nat} (h : PhEnds s ns) :
    placeholders s = ns := by
  have := h { q := false, cur := none, acc := [] } rfl rfl
  simpa [placeholders, phRun] using this

theorem phEnds_noDollar (t : String) (h : '$' ∉ t.data) : PhEnds t [] := by
  intro st hq hc
  obtain ⟨q', hrun⟩ := phRun_noDollar t.data h st hc
  rw [hrun]
  simp [phFlush]

theorem phEnds_neutral_left {s t : String} {ns : List Nat}
    (hs : PhNeutral s) (ht : PhEnds t ns) : PhEnds (s ++ t) ns := by
  intro st hq hc
  rw [String.data_append, phRun_append, hs st hq hc]
  exact ht st hq hc

theorem phEnds_emits_left {s t : String} {ns ms : List Nat}
    (hs : PhEmits s ns) (ht : PhEnds t ms)
    (hhead : ∃ c2 l2, t.data = c2 :: l2 ∧ c2.isDigit = false) :
    PhEnds (s ++ t) (ns ++ ms) := by
  intro st hq hc
  obtain ⟨c2, l2, hdata, hc2⟩ := hhead
  rw [String.data_append]
  have hsplit : t.data = c2 :: l2 := hdata
  rw [hsplit, hs st c2 l2 hq hc hc2, ← hsplit,
    ht { q := false, cur := none, acc := st.acc ++ ns } rfl rfl]
  simp

theorem phEnds_num (n : Nat) : PhEnds ("$" ++ natStr n) [n] := by
  intro st hq hc
  have hdata : ("$" ++ natStr n).data = '$' :: natChars n := by
    rw [String.data_append]; rfl
  rw [hdata]
  cases st with
  | mk q cur acc =>
    cases hq; cases hc
    rw [phRun_numToken n false acc rfl]
    simp [phFlush]

/-- A `name = $n` pair: `" = $" ++ numeral` regrouped around the `$` token. -/
theorem pairSplit (nm : String) (n : Nat) :
    nm ++ (" = $" ++ natStr n) = (nm ++ " = ") ++ ("$" ++ natStr n) := by
  have h0 : (" = $" : String) = " = " ++ "$" := by decide
  rw [h0, String.append_assoc " = " "$" (natStr n), String.append_assoc nm " = " ("$" ++ natStr n)]

/-- A sanitized identifier starts with a double quote. -/
theorem sanitize_head (s : String) :
    (sanitizeIdentifier s).data = '"' :: (doubleQuotes (stripNul s.data) ++ ['"']) := rfl

theorem phEmits_pair {nm : String} (hnm : PhNeutral nm) (n : Nat) :
    PhEmits (nm ++ (" = $" ++ natStr n)) [n] := by
  rw [pairSplit]
  exact phEmits_neutral_left (phNeutral_append hnm (phNeutral_plain " = " (by decide)))
    (phEmits_num n)

theorem phEnds_pair {nm : String} (hnm : PhNeutral nm) (n : Nat) :
    PhEnds (nm ++ (" = $" ++ natStr n)) [n] := by
  rw [pairSplit]
  exact phEnds_neutral_left (phNeutral_append hnm (phNeutral_plain " = " (by decide)))
    (phEnds_num n)

/-- The joined SET/WHERE pair list emits its placeholder numbers in order
when followed by more text. -/
theorem phEmits_setPairs {α : Type} (sep : String) (hsepN : PhNeutral sep)
    (hsepHead : ∃ c l, sep.data = c :: l ∧ c.isDigit = false) (nm : α → String) :
    ∀ (l : List α), (∀ x ∈ l, PhNeutral (nm x)) →
      ∀ a, PhEmits (commaJoin sep (setPairs nm a l)) (List.range' (a + 1) l.length) := by
  intro l
  induction l with
  | nil => intro _ a; simpa [setPairs, commaJoin] using phEmits_of_neutral phNeutral_empty
  | cons x xs ih =>
    intro hnm a
    have hx := hnm x (by simp)
    have hel := phEmits_pair hx (a + 1)
    cases xs with
    | nil =>
      rw [show commaJoin sep (setPairs nm a [x]) = nm x ++ (" = $" ++ natStr (a + 1)) by
        simp [setPairs, commaJoin, sepAll]]
      simpa [List.range'_succ] using hel
    | cons y ys =>
      have hrest : setPairs nm (a + 1) (y :: ys) =
          (nm y ++ (" = $" ++ natStr (a + 1 + 1))) :: setPairs nm (a + 1 + 1) ys := rfl
      rw [show commaJoin sep (setPairs nm a (x :: y :: ys)) =
          (nm x ++ (" = $" ++ natStr (a + 1))) ++
            (sep ++ commaJoin sep (setPairs nm (a + 1) (y :: ys))) by
        rw [show setPairs nm a (x :: y :: ys) =
            (nm x ++ (" = $" ++ natStr (a + 1))) :: setPairs nm (a + 1) (y :: ys) from rfl]
        rw [commaJoin_cons, hrest, sepAll_cons, ← hrest]]
      have step := phEmits_neutral_left hsepN (ih (fun z hz => hnm z (by simp [hz])) (a + 1))
      obtain ⟨c2, l2, hdata, hc2⟩ := hsepHead
      have hhead : ∃ c2 l2,
          (sep ++ commaJoin sep (setPairs nm (a + 1) (y :: ys))).data = c2 :: l2 ∧
            c2.isDigit = false := by
        refine ⟨c2, l2 ++ (commaJoin sep (setPairs nm (a + 1) (y :: ys))).data, ?_, hc2⟩
        rw [String.data_append, hdata]
        rfl
      have hfin := phEmits_append hel step hhead
      rw [show (x :: y :: ys).length = (y :: ys).length + 1 from rfl, List.range'_succ]
      simpa using hfin

/-- The joined SET/WHERE pair list emits its placeholder numbers in order at
the end of the statement. -/
theorem phEnds_setPairs {α : Type} (sep : String) (hsepN : PhNeutral sep)
    (hsepHead : ∃ c l, sep.data = c :: l ∧ c.isDigit = false) (nm : α → String) :
    ∀ (l : List α), (∀ x ∈ l, PhNeutral (nm x)) →
      ∀ a, PhEnds (commaJoin sep (setPairs nm a l)) (List.range' (a + 1) l.length) := by
  intro l
  induction l with
  | nil =>
    intro _ a
    simpa [setPairs, commaJoin] using phEnds_noDollar "" (by simp)
  | cons x xs ih =>
    intro hnm a
    have hx := hnm x (by simp)
    cases xs with
    | nil =>
      rw [show commaJoin sep (setPairs nm a [x]) = nm x ++ (" = $" ++ natStr (a + 1)) by
        simp [setPairs, commaJoin, sepAll]]
      simpa [List.range'_succ] using phEnds_pair hx (a + 1)
    | cons y ys =>
      have hrest : setPairs nm (a + 1) (y :: ys) =
          (nm y ++ (" = $" ++ natStr (a + 1 + 1))) :: setPairs nm (a + 1 + 1) ys := rfl
      rw [show commaJoin sep (setPairs nm a (x :: y :: ys)) =
          (nm x ++ (" = $" ++ natStr (a + 1))) ++
            (sep ++ commaJoin sep (setPairs nm (a + 1) (y :: ys))) by
        rw [show setPairs nm a (x :: y :: ys) =
            (nm x ++ (" = $" ++ natStr (a + 1))) :: setPairs nm (a + 1) (y :: ys) from rfl]
        rw [commaJoin_cons, hrest, sepAll_cons, ← hrest]]
      have step := phEnds_neutral_left hsepN (ih (fun z hz => hnm z (by simp [hz])) (a + 1))
      obtain ⟨c2, l2, hdata, hc2⟩ := hsepHead
      have hhead : ∃ c2 l2,
          (sep ++ commaJoin sep (setPairs nm (a + 1) (y :: ys))).data = c2 :: l2 ∧
            c2.isDigit = false := by
        refine ⟨c2, l2 ++ (commaJoin sep (setPairs nm (a + 1) (y :: ys))).data, ?_, hc2⟩
        rw [String.data_append, hdata]
        rfl
      have hfin := phEnds_emits_left (phEmits_pair hx (a + 1)) step hhead
      rw [show (x :: y :: ys).length = (y :: ys).length + 1 from rfl, List.range'_succ]
      simpa using hfin

theorem phEnds_of_neutral {t : String} (h : PhNeutral t) : PhEnds t [] := by
  intro st hq hc
  rw [h st hq hc]
  cases st with
  | mk q cur acc => cases hc; simp [phFlush]

theorem getD_mem {α : Type} [Inhabited α] :
    ∀ (l : List α) (i : Nat), i < l.length → l.getD i default ∈ l := by
  intro l
  induction l with
  | nil => intro i h; simp at h
  | cons x xs ih =>
    intro i h
    cases i with
    | zero => simp [List.getD_cons_zero]
    | succ j =>
      simp only [List.getD_cons_succ]
      exact List.mem_cons_of_mem x (ih j (by simpa using h))

theorem phNeutral_colQuotedName (t : Table) (hsan : ∀ c ∈ t.Columns, c.quotedName = sanitizeIdentifier c.Name)
    (i : Nat) (hi : i < t.Columns.length) : PhNeutral (t.colQuotedName i) := by
  unfold Table.colQuotedName
  rw [hsan _ (getD_mem t.Columns i hi)]
  exact phNeutral_sanitize _

theorem assignedIdxs_lt (r : Record) : ∀ i ∈ r.assignedIdxs, i < r.assigned.length := by
  intro i hi
  unfold Record.assignedIdxs at hi
  exact List.mem_range.mp (List.mem_filter.mp hi).1

theorem phNeutral_returning (t : Table) (hwf : t.WF) : PhNeutral t.returningClause := by
  rw [hwf.2.2.1, buildReturningClause_eq]
  refine phNeutral_append (phNeutral_plain "returning " (by decide)) ?_
  refine phNeutral_commaJoin ", " (phNeutral_plain ", " (by decide)) _ ?_
  intro x hx
  rw [List.mem_map] at hx
  obtain ⟨c, hc, rfl⟩ := hx
  rw [hwf.1 c hc]
  exact phNeutral_sanitize _

theorem phEmits_pkWhere (t : Table) (hwf : t.WF) :
    PhEmits t.pkWhereClause (List.range' 1 t.pkIndexes.length) := by
  rw [hwf.2.2.2.1, buildPKWhereClause_eq]
  refine phEmits_neutral_left (phNeutral_plain "where " (by decide)) ?_
  have := phEmits_setPairs " and " (phNeutral_plain " and " (by decide))
    ⟨' ', "and ".data, by rfl, by decide⟩
    (fun i => (t.Columns.getD i default).quotedName) t.pkIndexes
    (fun i hi => by
      show PhNeutral ((t.Columns.getD i default).quotedName)
      rw [hwf.1 _ (getD_mem t.Columns i (hwf.2.2.2.2 i hi))]
      exact phNeutral_sanitize _) 0
  simpa using this

/-- The placeholders of a generated INSERT are exactly `$1..$k` in textual
order, `k` the number of assigned columns. -/
theorem placeholders_insert (r : Record) (h : r.WF) :
    placeholders (r.insert).1 = List.range' 1 r.assignedIdxs.length := by
  obtain ⟨hwf, hattr, hassign⟩ := h
  rw [Record.insert_eq]
  apply placeholders_ends
  have hCJ : PhNeutral (commaJoin ", " (List.map r.table.colQuotedName r.assignedIdxs)) := by
    refine phNeutral_commaJoin ", " (phNeutral_plain ", " (by decide)) _ ?_
    intro x hx
    rw [List.mem_map] at hx
    obtain ⟨i, hi, rfl⟩ := hx
    exact phNeutral_colQuotedName r.table hwf.1 i (by
      have := assignedIdxs_lt r i hi
      omega)
  have hN : PhNeutral ("insert into " ++ r.table.quotedQualifiedName ++ " (" ++
      commaJoin ", " (List.map r.table.colQuotedName r.assignedIdxs) ++ ") values (") := by
    refine phNeutral_append (phNeutral_append (phNeutral_append (phNeutral_append
      (phNeutral_plain "insert into " (by decide)) ?_)
      (phNeutral_plain " (" (by decide))) hCJ) (phNeutral_plain ") values (" (by decide))
    rw [hwf.2.1]
    exact phNeutral_identifierSanitize _
  have hT : PhEnds (") " ++ r.table.returningClause) [] :=
    phEnds_of_neutral (phNeutral_append (phNeutral_plain ") " (by decide))
      (phNeutral_returning r.table hwf))
  have hThead : ∃ c l, ((") " : String) ++ r.table.returningClause).data = c :: l ∧
      c.isDigit = false := by
    refine ⟨')', ' ' :: r.table.returningClause.data, ?_, by decide⟩
    rw [String.data_append]
    rfl
  have hE : PhEnds (commaJoin ", " (phList 1 r.assignedIdxs.length) ++
      (") " ++ r.table.returningClause)) (List.range' 1 r.assignedIdxs.length) := by
    have := phEnds_emits_left (phEmits_phJoin r.assignedIdxs.length 1) hT hThead
    simpa using this
  have hre : "insert into " ++ r.table.quotedQualifiedName ++ " (" ++
        commaJoin ", " (List.map r.table.colQuotedName r.assignedIdxs) ++ ") values (" ++
        commaJoin ", " (phList 1 r.assignedIdxs.length) ++ ") " ++ r.table.returningClause =
      ("insert into " ++ r.table.quotedQualifiedName ++ " (" ++
        commaJoin ", " (List.map r.table.colQuotedName r.assignedIdxs) ++ ") values (") ++
      (commaJoin ", " (phList 1 r.assignedIdxs.length) ++
        (") " ++ r.table.returningClause)) := by
    simp [String.append_assoc]
  rw [hre]
  exact phEnds_neutral_left hN hE

/-- The placeholders of a generated UPDATE in textual order: the SET
placeholders `$(k+1)..$(k+m)` first, then the WHERE placeholders `$1..$k`. -/
theorem placeholders_update (r : Record) (h : r.WF) :
    placeholders (r.update).1 =
      List.range' (r.table.pkIndexes.length + 1) r.assignedIdxs.length ++
        List.range' 1 r.table.pkIndexes.length := by
  obtain ⟨hwf, hattr, hassign⟩ := h
  rw [Record.update_eq]
  apply placeholders_ends
  have hN : PhNeutral ("update " ++ r.table.quotedQualifiedName ++ " set ") := by
    refine phNeutral_append (phNeutral_append (phNeutral_plain "update " (by decide)) ?_)
      (phNeutral_plain " set " (by decide))
    rw [hwf.2.1]
    exact phNeutral_identifierSanitize _
  have hSJ : PhEmits (commaJoin ", "
      (setPairs r.table.colQuotedName r.table.pkIndexes.length r.assignedIdxs))
      (List.range' (r.table.pkIndexes.length + 1) r.assignedIdxs.length) := by
    have := phEmits_setPairs ", " (phNeutral_plain ", " (by decide))
      ⟨',', " ".data, by rfl, by decide⟩ r.table.colQuotedName r.assignedIdxs
      (fun i hi => phNeutral_colQuotedName r.table hwf.1 i (by
        have := assignedIdxs_lt r i hi
        omega)) r.table.pkIndexes.length
    simpa using this
  have hT : PhEnds (" " ++ r.table.returningClause) [] :=
    phEnds_of_neutral (phNeutral_append (phNeutral_plain " " (by decide))
      (phNeutral_returning r.table hwf))
  have hThead : ∃ c l, ((" " : String) ++ r.table.returningClause).data = c :: l ∧
      c.isDigit = false := by
    refine ⟨' ', r.table.returningClause.data, ?_, by decide⟩
    rw [String.data_append]
    rfl
  have hPkEnds : PhEnds (r.table.pkWhereClause ++ (" " ++ r.table.returningClause))
      (List.range' 1 r.table.pkIndexes.length) := by
    have := phEnds_emits_left (phEmits_pkWhere r.table hwf) hT hThead
    simpa using this
  have hPkHead : ∃ c l, (r.table.pkWhereClause ++ (" " ++ r.table.returningClause)).data =
      c :: l ∧ c.isDigit = false := by
    rw [hwf.2.2.2.1, buildPKWhereClause_eq, String.append_assoc]
    refine ⟨'w', ['h', 'e', 'r', 'e', ' '] ++
      (commaJoin " and "
          (setPairs (fun i => (r.table.Columns.getD i default).quotedName) 0
            r.table.pkIndexes) ++
        (" " ++ r.table.returningClause)).data, ?_, by decide⟩
    rw [String.data_append]
    rfl
  have hMid : PhEnds (" " ++ (r.table.pkWhereClause ++ (" " ++ r.table.returningClause)))
      (List.range' 1 r.table.pkIndexes.length) :=
    phEnds_neutral_left (phNeutral_plain " " (by decide)) hPkEnds
  have hMidHead : ∃ c l,
      ((" " : String) ++ (r.table.pkWhereClause ++ (" " ++ r.table.returningClause))).data =
        c :: l ∧ c.isDigit = false := by
    refine ⟨' ', (r.table.pkWhereClause ++ (" " ++ r.table.returningClause)).data, ?_,
      by decide⟩
    rw [String.data_append]
    rfl
  have hE := phEnds_emits_left hSJ hMid hMidHead
  have hre : "update " ++ r.table.quotedQualifiedName ++ " set " ++
        commaJoin ", "
          (setPairs r.table.colQuotedName r.table.pkIndexes.length r.assignedIdxs) ++
        " " ++ r.table.pkWhereClause ++ " " ++ r.table.returningClause =
      ("update " ++ r.table.quotedQualifiedName ++ " set ") ++
        (commaJoin ", "
          (setPairs r.table.colQuotedName r.table.pkIndexes.length r.assignedIdxs) ++
          (" " ++ (r.table.pkWhereClause ++ (" " ++ r.table.returningClause)))) := by
    simp [String.append_assoc]
  rw [hre]
  exact phEnds_neutral_left hN hE

theorem range'_glue : ∀ (m s w : Nat),
    List.range' s m ++ List.range' (s + m) w = List.range' s (m + w) := by
  intro m
  induction m with
  | zero => intro s w; simp
  | succ m ih =>
    intro s w
    rw [List.range'_succ, show s + (m + 1) = (s + 1) + m by omega, List.cons_append, ih,
      show m + 1 + w = (m + w) + 1 by omega, List.range'_succ]

theorem phNeutral_keysJoin (keys : List String) :
    PhNeutral (commaJoin ", " (keys.map sanitizeIdentifier)) := by
  refine phNeutral_commaJoin ", " (phNeutral_plain ", " (by decide)) _ ?_
  intro x hx
  rw [List.mem_map] at hx
  obtain ⟨k, _, rfl⟩ := hx
  exact phNeutral_sanitize k

/-- Placeholders of `insertRowSQL`: `$1..$k` in textual order, `k` the
number of (sorted) keys, whatever the returning clause adds as long as it
contains no `$`. -/
theorem placeholders_insertRowSQL (tableName : List String) (values : GoMap) (ret : String)
    (hret : '$' ∉ ret.data) :
    placeholders (insertRowSQL tableName values ret).1 =
      List.range' 1 (sortStrings (values.map Prod.fst)).length := by
  rw [insertRowSQL_eq]
  have hN : PhNeutral ("insert into " ++ tableNameSQL tableName ++ " (" ++
      commaJoin ", " ((sortStrings (values.map Prod.fst)).map sanitizeIdentifier) ++
      ") values (") :=
    phNeutral_append (phNeutral_append (phNeutral_append (phNeutral_append
      (phNeutral_plain "insert into " (by decide)) (phNeutral_tableNameSQL tableName))
      (phNeutral_plain " (" (by decide))) (phNeutral_keysJoin _))
      (phNeutral_plain ") values (" (by decide))
  have hPJ := phEmits_phJoin (sortStrings (values.map Prod.fst)).length 1
  by_cases hr : ret = ""
  · subst hr
    rw [if_neg (by simp)]
    apply placeholders_ends
    simp only [insertRowCore]
    have hE : PhEnds (commaJoin ", " (phList 1 (sortStrings (values.map Prod.fst)).length) ++
        ")") (List.range' 1 (sortStrings (values.map Prod.fst)).length) := by
      have := phEnds_emits_left hPJ (phEnds_of_neutral (phNeutral_plain ")" (by decide)))
        ⟨')', [], rfl, by decide⟩
      simpa using this
    have hre : "insert into " ++ tableNameSQL tableName ++ " (" ++
          commaJoin ", " ((sortStrings (values.map Prod.fst)).map sanitizeIdentifier) ++
          ") values (" ++
          commaJoin ", " (phList 1 (sortStrings (values.map Prod.fst)).length) ++ ")" =
        ("insert into " ++ tableNameSQL tableName ++ " (" ++
          commaJoin ", " ((sortStrings (values.map Prod.fst)).map sanitizeIdentifier) ++
          ") values (") ++
        (commaJoin ", " (phList 1 (sortStrings (values.map Prod.fst)).length) ++ ")") := by
      simp [String.append_assoc]
    rw [hre]
    exact phEnds_neutral_left hN hE
  · rw [if_pos hr]
    apply placeholders_ends
    simp only [insertRowCore]
    have hT : PhEnds (") returning " ++ ret) [] :=
      phEnds_neutral_left (phNeutral_plain ") returning " (by decide))
        (phEnds_noDollar ret hret)
    have hE : PhEnds (commaJoin ", " (phList 1 (sortStrings (values.map Prod.fst)).length) ++
        (") returning " ++ ret))
        (List.range' 1 (sortStrings (values.map Prod.fst)).length) := by
      have := phEnds_emits_left hPJ hT
        ⟨')', ' ' :: ("returning " ++ ret).data, by rw [String.data_append]; rfl, by decide⟩
      simpa using this
    have hre : "insert into " ++ tableNameSQL tableName ++ " (" ++
          commaJoin ", " ((sortStrings (values.map Prod.fst)).map sanitizeIdentifier) ++
          ") values (" ++
          commaJoin ", " (phList 1 (sortStrings (values.map Prod.fst)).length) ++ ")" ++
          " returning " ++ ret =
        ("insert into " ++ tableNameSQL tableName ++ " (" ++
          commaJoin ", " ((sortStrings (values.map Prod.fst)).map sanitizeIdentifier) ++
          ") values (") ++
        (commaJoin ", " (phList 1 (sortStrings (values.map Prod.fst)).length) ++
          (") returning " ++ ret)) := by
      simp [String.append_assoc]
    rw [hre]
    exact phEnds_neutral_left hN hE

/-- Placeholders of `updateSQL`: `$1..$(m+w)` in textual order (`m` SET
keys then `w` WHERE keys). -/
theorem placeholders_updateSQL (tableName : List String) (sv wv : GoMap) (ret : String)
    (hret : '$' ∉ ret.data) :
    placeholders (updateSQL tableName sv wv ret).1 =
      List.range' 1 ((sortStrings (sv.map Prod.fst)).length +
        (sortStrings (wv.map Prod.fst)).length) := by
  rw [updateSQL_eq]
  have hN : PhNeutral ("update " ++ tableNameSQL tableName ++ " set ") :=
    phNeutral_append (phNeutral_append (phNeutral_plain "update " (by decide))
      (phNeutral_tableNameSQL tableName)) (phNeutral_plain " set " (by decide))
  have hkeyN : ∀ (l : List String), ∀ x ∈ l, PhNeutral (sanitizeIdentifier x) :=
    fun _ x _ => phNeutral_sanitize x
  have hSJ := phEmits_setPairs ", " (phNeutral_plain ", " (by decide))
    ⟨',', [' '], rfl, by decide⟩ sanitizeIdentifier (sortStrings (sv.map Prod.fst))
    (hkeyN _) 0
  have hSJEnds := phEnds_setPairs ", " (phNeutral_plain ", " (by decide))
    ⟨',', [' '], rfl, by decide⟩ sanitizeIdentifier (sortStrings (sv.map Prod.fst))
    (hkeyN _) 0
  have hWJ := phEmits_setPairs " and " (phNeutral_plain " and " (by decide))
    ⟨' ', "and ".data, rfl, by decide⟩ sanitizeIdentifier (sortStrings (wv.map Prod.fst))
    (hkeyN _) (sortStrings (sv.map Prod.fst)).length
  have hWJEnds := phEnds_setPairs " and " (phNeutral_plain " and " (by decide))
    ⟨' ', "and ".data, rfl, by decide⟩ sanitizeIdentifier (sortStrings (wv.map Prod.fst))
    (hkeyN _) (sortStrings (sv.map Prod.fst)).length
  by_cases hw : wv.length > 0
  · simp only [if_pos hw]
    by_cases hr : ret = ""
    · subst hr
      rw [if_neg (by simp)]
      apply placeholders_ends
      have hE : PhEnds (commaJoin ", "
            (setPairs sanitizeIdentifier 0 (sortStrings (sv.map Prod.fst))) ++
          (" where " ++ commaJoin " and "
            (setPairs sanitizeIdentifier (sortStrings (sv.map Prod.fst)).length
              (sortStrings (wv.map Prod.fst)))))
          (List.range' 1 ((sortStrings (sv.map Prod.fst)).length +
            (sortStrings (wv.map Prod.fst)).length)) := by
        have hmid := phEnds_neutral_left (phNeutral_plain " where " (by decide)) hWJEnds
        have := phEnds_emits_left hSJ hmid
          ⟨' ', _, by rw [String.data_append]; rfl, by decide⟩
        rw [show (0 : Nat) + 1 = 1 from rfl] at this
        rw [← range'_glue (sortStrings (sv.map Prod.fst)).length 1]
        simpa [Nat.add_comm] using this
      have hre : "update " ++ tableNameSQL tableName ++ " set " ++
            (commaJoin ", "
              (setPairs sanitizeIdentifier 0 (sortStrings (sv.map Prod.fst))) ++
              (" where " ++ commaJoin " and "
                (setPairs sanitizeIdentifier (sortStrings (sv.map Prod.fst)).length
                  (sortStrings (wv.map Prod.fst))))) =
          ("update " ++ tableNameSQL tableName ++ " set ") ++
            (commaJoin ", "
              (setPairs sanitizeIdentifier 0 (sortStrings (sv.map Prod.fst))) ++
              (" where " ++ commaJoin " and "
                (setPairs sanitizeIdentifier (sortStrings (sv.map Prod.fst)).length
                  (sortStrings (wv.map Prod.fst))))) := by
        simp [String.append_assoc]
      rw [hre]
      exact phEnds_neutral_left hN hE
    · rw [if_pos hr]
      apply placeholders_ends
      have hT : PhEnds (" returning " ++ ret) [] :=
        phEnds_neutral_left (phNeutral_plain " returning " (by decide))
          (phEnds_noDollar ret hret)
      have hE : PhEnds (commaJoin ", "
            (setPairs sanitizeIdentifier 0 (sortStrings (sv.map Prod.fst))) ++
          (" where " ++ (commaJoin " and "
            (setPairs sanitizeIdentifier (sortStrings (sv.map Prod.fst)).length
              (sortStrings (wv.map Prod.fst))) ++ (" returning " ++ ret))))
          (List.range' 1 ((sortStrings (sv.map Prod.fst)).length +
            (sortStrings (wv.map Prod.fst)).length)) := by
        have hWT := phEnds_emits_left hWJ hT
          ⟨' ', ("returning " ++ ret).data, by rw [String.data_append]; rfl, by decide⟩
        have hmid := phEnds_neutral_left (phNeutral_plain " where " (by decide)) hWT
        have := phEnds_emits_left hSJ hmid
          ⟨' ', _, by rw [String.data_append]; rfl, by decide⟩
        rw [show (0 : Nat) + 1 = 1 from rfl] at this
        rw [← range'_glue (sortStrings (sv.map Prod.fst)).length 1]
        simpa [Nat.add_comm] using this
      have hre : "update " ++ tableNameSQL tableName ++ " set " ++
            (commaJoin ", "
              (setPairs sanitizeIdentifier 0 (sortStrings (sv.map Prod.fst))) ++
              (" where " ++ commaJoin " and "
                (setPairs sanitizeIdentifier (sortStrings (sv.map Prod.fst)).length
                  (sortStrings (wv.map Prod.fst))))) ++ " returning " ++ ret =
          ("update " ++ tableNameSQL tableName ++ " set ") ++
            (commaJoin ", "
              (setPairs sanitizeIdentifier 0 (sortStrings (sv.map Prod.fst))) ++
              (" where " ++ (commaJoin " and "
                (setPairs sanitizeIdentifier (sortStrings (sv.map Prod.fst)).length
                  (sortStrings (wv.map Prod.fst))) ++ (" returning " ++ ret)))) := by
        simp [String.append_assoc]
      rw [hre]
      exact phEnds_neutral_left hN hE
  · have hwv : wv = [] := List.eq_nil_of_length_eq_zero (by omega)
    subst hwv
    simp only [if_neg hw]
    have hempty : sortStrings ((List.nil : GoMap).map Prod.fst) = [] := rfl
    rw [hempty]
    simp only [List.length_nil, Nat.add_zero]
    by_cases hr : ret = ""
    · subst hr
      rw [if_neg (by simp)]
      apply placeholders_ends
      have hre : "update " ++ tableNameSQL tableName ++ " set " ++
            commaJoin ", " (setPairs sanitizeIdentifier 0 (sortStrings (sv.map Prod.fst))) =
          ("update " ++ tableNameSQL tableName ++ " set ") ++
            commaJoin ", " (setPairs sanitizeIdentifier 0 (sortStrings (sv.map Prod.fst))) := by
        simp [String.append_assoc]
      rw [hre]
      have := phEnds_neutral_left hN hSJEnds
      simpa using this
    · rw [if_pos hr]
      apply placeholders_ends
      have hT : PhEnds (" returning " ++ ret) [] :=
        phEnds_neutral_left (phNeutral_plain " returning " (by decide))
          (phEnds_noDollar ret hret)
      have hE : PhEnds (commaJoin ", "
            (setPairs sanitizeIdentifier 0 (sortStrings (sv.map Prod.fst))) ++
            (" returning " ++ ret))
          (List.range' 1 (sortStrings (sv.map Prod.fst)).length) := by
        have := phEnds_emits_left hSJ hT
          ⟨' ', ("returning " ++ ret).data, by rw [String.data_append]; rfl, by decide⟩
        simpa using this
      have hre : "update " ++ tableNameSQL tableName ++ " set " ++
            commaJoin ", " (setPairs sanitizeIdentifier 0 (sortStrings (sv.map Prod.fst))) ++
            " returning " ++ ret =
          ("update " ++ tableNameSQL tableName ++ " set ") ++
            (commaJoin ", "
              (setPairs sanitizeIdentifier 0 (sortStrings (sv.map Prod.fst))) ++
              (" returning " ++ ret)) := by
        simp [String.append_assoc]
      rw [hre]
      exact phEnds_neutral_left hN hE

/-- The values chunks of a multi-row insert emit one consecutive run of
placeholder numbers, row by row. -/
theorem phEmits_valuesChunk (k : Nat) : ∀ (rows : List GoMap) (ph rowIdx : Nat),
    PhEmits (valuesChunk k ph rowIdx rows) (List.range' ph (rows.length * k)) := by
  intro rows
  induction rows with
  | nil => intro ph rowIdx; simpa [valuesChunk] using phEmits_of_neutral phNeutral_empty
  | cons v vs ih =>
    intro ph rowIdx
    have hif : PhNeutral (if rowIdx = 0 then (") values (" : String) else "), (") := by
      split
      · exact phNeutral_plain ") values (" (by decide)
      · exact phNeutral_plain "), (" (by decide)
    cases vs with
    | nil =>
      rw [show valuesChunk k ph rowIdx [v] =
          (if rowIdx = 0 then ") values (" else "), (") ++
            (commaJoin ", " (phList ph k) ++ "") from rfl, String.append_empty]
      have := phEmits_neutral_left hif (phEmits_phJoin k ph)
      simpa using this
    | cons v' vs' =>
      rw [show valuesChunk k ph rowIdx (v :: v' :: vs') =
          (if rowIdx = 0 then ") values (" else "), (") ++
            (commaJoin ", " (phList ph k) ++
              valuesChunk k (ph + k) (rowIdx + 1) (v' :: vs')) from rfl]
      have hrest := ih (ph + k) (rowIdx + 1)
      have hchunk : valuesChunk k (ph + k) (rowIdx + 1) (v' :: vs') =
          "), (" ++ (commaJoin ", " (phList (ph + k) k) ++
            valuesChunk k (ph + k + k) (rowIdx + 1 + 1) vs') := by
        rw [show valuesChunk k (ph + k) (rowIdx + 1) (v' :: vs') =
            (if rowIdx + 1 = 0 then ") values (" else "), (") ++
              (commaJoin ", " (phList (ph + k) k) ++
                valuesChunk k (ph + k + k) (rowIdx + 1 + 1) vs') from rfl]
        simp
      have hhd : ∃ c l, (valuesChunk k (ph + k) (rowIdx + 1) (v' :: vs')).data = c :: l ∧
          c.isDigit = false := by
        rw [hchunk]
        refine ⟨')', (", (" : String).data ++
          (commaJoin ", " (phList (ph + k) k) ++
            valuesChunk k (ph + k + k) (rowIdx + 1 + 1) vs').data, ?_, by decide⟩
        rw [String.data_append]
        rfl
      have := phEmits_neutral_left hif (phEmits_append (phEmits_phJoin k ph) hrest hhd)
      rw [show (v :: v' :: vs').length * k = k + (v' :: vs').length * k by
        simp [List.length_cons, Nat.succ_mul]; omega]
      rw [← range'_glue k ph ((v' :: vs').length * k)]
      exact this

theorem length_flatMap_keys (keys : List String) :
    ∀ (rows : List GoMap),
      (rows.flatMap (fun v => keys.map (mapGet v))).length = rows.length * keys.length := by
  intro rows
  induction rows with
  | nil => simp
  | cons v vs ih => simp [List.flatMap_cons, ih, Nat.succ_mul]; omega

/-- Placeholders of `insertSQL`: `$1..$(rows*keys)` in textual order. -/
theorem placeholders_insertSQL (tableName : List String) (rows : List GoMap) (ret : String)
    (hret : '$' ∉ ret.data) :
    placeholders (insertSQL tableName rows ret).1 =
      List.range' 1 (rows.length * (sortStrings ((rows.getD 0 []).map Prod.fst)).length) := by
  rw [insertSQL_eq]
  have hN : PhNeutral ("insert into " ++ tableNameSQL tableName ++ " (" ++
      commaJoin ", " ((sortStrings ((rows.getD 0 []).map Prod.fst)).map sanitizeIdentifier)) :=
    phNeutral_append (phNeutral_append (phNeutral_append
      (phNeutral_plain "insert into " (by decide)) (phNeutral_tableNameSQL tableName))
      (phNeutral_plain " (" (by decide))) (phNeutral_keysJoin _)
  have hVC := phEmits_valuesChunk (sortStrings ((rows.getD 0 []).map Prod.fst)).length rows 1 0
  by_cases hr : ret = ""
  · subst hr
    rw [if_neg (by simp)]
    apply placeholders_ends
    simp only [insertCore]
    have hE : PhEnds (valuesChunk (sortStrings ((rows.getD 0 []).map Prod.fst)).length 1 0 rows ++
        ")") (List.range' 1 (rows.length * (sortStrings ((rows.getD 0 []).map Prod.fst)).length)) := by
      have := phEnds_emits_left hVC (phEnds_of_neutral (phNeutral_plain ")" (by decide)))
        ⟨')', [], rfl, by decide⟩
      simpa using this
    have hre : "insert into " ++ tableNameSQL tableName ++ " (" ++
          commaJoin ", " ((sortStrings ((rows.getD 0 []).map Prod.fst)).map sanitizeIdentifier) ++
          valuesChunk (sortStrings ((rows.getD 0 []).map Prod.fst)).length 1 0 rows ++ ")" =
        ("insert into " ++ tableNameSQL tableName ++ " (" ++
          commaJoin ", " ((sortStrings ((rows.getD 0 []).map Prod.fst)).map sanitizeIdentifier)) ++
        (valuesChunk (sortStrings ((rows.getD 0 []).map Prod.fst)).length 1 0 rows ++ ")") := by
      simp [String.append_assoc]
    rw [hre]
    exact phEnds_neutral_left hN hE
  · rw [if_pos hr]
    apply placeholders_ends
    simp only [insertCore]
    have hT : PhEnds (") returning " ++ ret) [] :=
      phEnds_neutral_left (phNeutral_plain ") returning " (by decide))
        (phEnds_noDollar ret hret)
    have hE : PhEnds (valuesChunk (sortStrings ((rows.getD 0 []).map Prod.fst)).length 1 0 rows ++
        (") returning " ++ ret))
        (List.range' 1 (rows.length * (sortStrings ((rows.getD 0 []).map Prod.fst)).length)) := by
      have := phEnds_emits_left hVC hT
        ⟨')', ' ' :: ("returning " ++ ret).data, by rw [String.data_append]; rfl, by decide⟩
      simpa using this
    have hre : "insert into " ++ tableNameSQL tableName ++ " (" ++
          commaJoin ", " ((sortStrings ((rows.getD 0 []).map Prod.fst)).map sanitizeIdentifier) ++
          valuesChunk (sortStrings ((rows.getD 0 []).map Prod.fst)).length 1 0 rows ++ ")" ++
          " returning " ++ ret =
        ("insert into " ++ tableNameSQL tableName ++ " (" ++
          commaJoin ", " ((sortStrings ((rows.getD 0 []).map Prod.fst)).map sanitizeIdentifier)) ++
        (valuesChunk (sortStrings ((rows.getD 0 []).map Prod.fst)).length 1 0 rows ++
          (") returning " ++ ret)) := by
      simp [String.append_assoc]
    rw [hre]
    exact phEnds_neutral_left hN hE

/-!
Determinism of the free builders: sorting makes the output independent of
the Go map's iteration order.
-/

theorem char_toNat_inj {a b : Char} (h : a.toNat = b.toNat) : a = b := by
  apply Char.ext
  cases ha : a.val with
  | mk av =>
    cases hb : b.val with
    | mk bv =>
      simp only [Char.toNat, UInt32.toNat, ha, hb] at h
      cases av
      cases bv
      congr 1
      congr 1
      exact Fin.ext h

theorem charListLt_asymm : ∀ x y : List Char,
    charListLt x y = true → charListLt y x = false := by
  intro x
  induction x with
  | nil => intro y h; cases y <;> simp_all [charListLt]
  | cons a as ih =>
    intro y h
    cases y with
    | nil => simp_all [charListLt]
    | cons b bs =>
      simp only [charListLt] at h ⊢
      by_cases h1 : a.toNat < b.toNat
      · simp [h1, show ¬ b.toNat < a.toNat by omega]
      · by_cases h2 : b.toNat < a.toNat
        · simp [h1, h2] at h
        · simp only [if_neg h1, if_neg h2] at h ⊢
          exact ih bs h

theorem charListLt_trans : ∀ x y z : List Char,
    charListLt x y = true → charListLt y z = true → charListLt x z = true := by
  intro x
  induction x with
  | nil =>
    intro y z hxy hyz
    cases y <;> cases z <;> simp_all [charListLt]
  | cons a as ih =>
    intro y z hxy hyz
    cases y with
    | nil => simp_all [charListLt]
    | cons b bs =>
      cases z with
      | nil => simp_all [charListLt]
      | cons c cs =>
        simp only [charListLt] at hxy hyz ⊢
        by_cases h1 : a.toNat < b.toNat <;> by_cases h2 : b.toNat < c.toNat
        · simp [show a.toNat < c.toNat by omega]
        · by_cases h3 : c.toNat < b.toNat
          · simp [h2, h3] at hyz
          · have : b.toNat = c.toNat := by omega
            simp [show a.toNat < c.toNat by omega]
        · by_cases h0 : b.toNat < a.toNat
          · simp [h1, h0] at hxy
          · have : a.toNat = b.toNat := by omega
            simp [show a.toNat < c.toNat by omega]
        · by_cases h0 : b.toNat < a.toNat
          · simp [h1, h0] at hxy
          · by_cases h3 : c.toNat < b.toNat
            · simp [h2, h3] at hyz
            · have hab : a.toNat = b.toNat := by omega
              have hbc : b.toNat = c.toNat := by omega
              simp only [if_neg h1, if_neg h0] at hxy
              simp only [if_neg h2, if_neg h3] at hyz
              simp only [show ¬ a.toNat < c.toNat by omega,
                show ¬ c.toNat < a.toNat by omega, if_neg, if_false]
              exact ih bs cs hxy hyz

theorem charListLt_connex : ∀ x y : List Char,
    charListLt x y = false → charListLt y x = false → x = y := by
  intro x
  induction x with
  | nil => intro y h _; cases y <;> simp_all [charListLt]
  | cons a as ih =>
    intro y hxy hyx
    cases y with
    | nil => simp_all [charListLt]
    | cons b bs =>
      simp only [charListLt] at hxy hyx
      by_cases h1 : a.toNat < b.toNat
      · simp [h1] at hxy
      · by_cases h2 : b.toNat < a.toNat
        · simp [h1, h2] at hyx
        · simp only [if_neg h1, if_neg h2] at hxy hyx
          have hab : a = b := char_toNat_inj (by omega)
          rw [hab, ih bs hxy hyx]

theorem strLeB_total (a b : String) : strLeB a b = true ∨ strLeB b a = true := by
  unfold strLeB
  by_cases h : charListLt b.data a.data = true
  · right
    rw [charListLt_asymm _ _ h]
    rfl
  · left
    simp at h
    rw [h]
    rfl

theorem strLeB_trans {a b c : String} (h1 : strLeB a b = true) (h2 : strLeB b c = true) :
    strLeB a c = true := by
  unfold strLeB at *
  simp only [Bool.not_eq_true', Bool.not_eq_false] at *
  by_cases hca : charListLt c.data a.data = true
  · exfalso
    by_cases hbc : charListLt b.data c.data = true
    · have hba := charListLt_trans _ _ _ hbc hca
      simp [hba] at h1
    · have heq : c.data = b.data := charListLt_connex _ _ h2 (by simpa using hbc)
      rw [heq] at hca
      simp [hca] at h1
  · simpa using hca

theorem strLeB_antisymm {a b : String} (h1 : strLeB a b = true) (h2 : strLeB b a = true) :
    a = b := by
  unfold strLeB at *
  simp only [Bool.not_eq_true'] at *
  cases a with
  | mk la =>
    cases b with
    | mk lb => exact congrArg String.mk (charListLt_connex la lb h2 h1)

theorem mem_insertSorted (x : String) : ∀ (l : List String) (a : String),
    a ∈ insertSorted x l ↔ a = x ∨ a ∈ l := by
  intro l
  induction l with
  | nil => intro a; simp [insertSorted]
  | cons y ys ih =>
    intro a
    simp only [insertSorted]
    split
    · simp [List.mem_cons]
    · rw [List.mem_cons, ih a]
      simp [List.mem_cons]
      tauto

theorem perm_insertSorted (x : String) : ∀ l : List String,
    (insertSorted x l).Perm (x :: l) := by
  intro l
  induction l with
  | nil => simp [insertSorted]
  | cons y ys ih =>
    simp only [insertSorted]
    split
    · exact List.Perm.refl _
    · exact (List.Perm.cons y ih).trans (List.Perm.swap x y ys)

theorem sortStrings_perm : ∀ l : List String, (sortStrings l).Perm l := by
  intro l
  induction l with
  | nil => exact List.Perm.refl _
  | cons x xs ih =>
    show (insertSorted x (sortStrings xs)).Perm (x :: xs)
    exact (perm_insertSorted x (sortStrings xs)).trans (List.Perm.cons x ih)

theorem pairwise_insertSorted (x : String) :
    ∀ l : List String, l.Pairwise (fun a b => strLeB a b = true) →
      (insertSorted x l).Pairwise (fun a b => strLeB a b = true) := by
  intro l
  induction l with
  | nil => intro _; simp [insertSorted]
  | cons y ys ih =>
    intro h
    rw [List.pairwise_cons] at h
    simp only [insertSorted]
    split
    · rename_i hxy
      rw [List.pairwise_cons]
      refine ⟨?_, List.pairwise_cons.mpr h⟩
      intro a ha
      rw [List.mem_cons] at ha
      rcases ha with rfl | ha
      · exact hxy
      · exact strLeB_trans hxy (h.1 a ha)
    · rename_i hxy
      have hyx : strLeB y x = true := by
        rcases strLeB_total x y with h' | h'
        · exact absurd h' hxy
        · exact h'
      rw [List.pairwise_cons]
      refine ⟨?_, ih h.2⟩
      intro a ha
      rw [mem_insertSorted] at ha
      rcases ha with rfl | ha
      · exact hyx
      · exact h.1 a ha

theorem sortStrings_sorted : ∀ l : List String,
    (sortStrings l).Pairwise (fun a b => strLeB a b = true) := by
  intro l
  induction l with
  | nil => simp [sortStrings]
  | cons x xs ih => exact pairwise_insertSorted x (sortStrings xs) ih

/-- Two key lists with the same elements sort identically. -/
theorem sortStrings_perm_eq {l₁ l₂ : List String} (h : l₁.Perm l₂) :
    sortStrings l₁ = sortStrings l₂ := by
  haveI : IsAntisymm String (fun a b => strLeB a b = true) := ⟨fun _ _ => strLeB_antisymm⟩
  refine List.eq_of_perm_of_sorted ?_ (sortStrings_sorted l₁) (sortStrings_sorted l₂)
  exact ((sortStrings_perm l₁).trans h).trans (sortStrings_perm l₂).symm

/-- Association-list lookup is order-independent when the keys are distinct. -/
theorem lookup_perm : ∀ {m₁ m₂ : GoMap}, m₁.Perm m₂ →
    (m₁.map Prod.fst).Nodup → ∀ k, m₁.lookup k = m₂.lookup k := by
  intro m₁ m₂ h
  induction h with
  | nil => intro _ _; rfl
  | cons x h ih =>
    intro hn k
    obtain ⟨kx, vx⟩ := x
    rw [List.map_cons] at hn
    have hn' : _ := (List.nodup_cons.mp hn).2
    by_cases hk : k == kx
    · simp [List.lookup, hk]
    · simp only [List.lookup, hk]
      exact ih hn' k
  | swap x y t =>
    intro hn k
    obtain ⟨kx, vx⟩ := x
    obtain ⟨ky, vy⟩ := y
    rw [List.map_cons, List.map_cons] at hn
    have hxy : ky ≠ kx := by
      intro he
      exact (List.nodup_cons.mp hn).1 (by simp [he])
    by_cases h1 : k = ky <;> by_cases h2 : k = kx
    · exact absurd (h1.symm.trans h2) hxy
    · subst h1
      have e2 : (k == kx) = false := beq_eq_false_iff_ne.mpr h2
      simp [List.lookup, e2]
    · subst h2
      have e1 : (k == ky) = false := beq_eq_false_iff_ne.mpr h1
      simp [List.lookup, e1]
    · have e1 : (k == ky) = false := beq_eq_false_iff_ne.mpr h1
      have e2 : (k == kx) = false := beq_eq_false_iff_ne.mpr h2
      simp [List.lookup, e1, e2]
  | trans h₁ h₂ ih₁ ih₂ =>
    intro hn k
    have hn2 := ((h₁.map Prod.fst).nodup_iff).mp hn
    rw [ih₁ hn k, ih₂ hn2 k]

theorem mapGet_perm {m₁ m₂ : GoMap} (h : m₁.Perm m₂)
    (hn : (m₁.map Prod.fst).Nodup) (k : String) : mapGet m₁ k = mapGet m₂ k := by
  unfold mapGet
  rw [lookup_perm h hn k]

/-- `insertRowSQL` is independent of the map's iteration order. -/
theorem insertRowSQL_perm (tableName : List String) (ret : String) {m₁ m₂ : GoMap}
    (h : m₁.Perm m₂) (hn : (m₁.map Prod.fst).Nodup) :
    insertRowSQL tableName m₁ ret = insertRowSQL tableName m₂ ret := by
  rw [insertRowSQL_eq, insertRowSQL_eq]
  have hkeys : sortStrings (m₁.map Prod.fst) = sortStrings (m₂.map Prod.fst) :=
    sortStrings_perm_eq (h.map Prod.fst)
  rw [← hkeys]
  have hargs : (sortStrings (m₁.map Prod.fst)).map (mapGet m₁) =
      (sortStrings (m₁.map Prod.fst)).map (mapGet m₂) :=
    List.map_congr_left (fun k _ => mapGet_perm h hn k)
  rw [hargs]

/-- `updateSQL` is independent of both maps' iteration orders. -/
theorem updateSQL_perm (tableName : List String) (ret : String) {sv₁ sv₂ wv₁ wv₂ : GoMap}
    (hs : sv₁.Perm sv₂) (hsn : (sv₁.map Prod.fst).Nodup)
    (hw : wv₁.Perm wv₂) (hwn : (wv₁.map Prod.fst).Nodup) :
    updateSQL tableName sv₁ wv₁ ret = updateSQL tableName sv₂ wv₂ ret := by
  rw [updateSQL_eq, updateSQL_eq]
  have hskeys : sortStrings (sv₁.map Prod.fst) = sortStrings (sv₂.map Prod.fst) :=
    sortStrings_perm_eq (hs.map Prod.fst)
  have hwkeys : sortStrings (wv₁.map Prod.fst) = sortStrings (wv₂.map Prod.fst) :=
    sortStrings_perm_eq (hw.map Prod.fst)
  have hlen : wv₁.length = wv₂.length := hw.length_eq
  rw [← hskeys, ← hwkeys, ← hlen]
  have hsargs : (sortStrings (sv₁.map Prod.fst)).map (mapGet sv₁) =
      (sortStrings (sv₁.map Prod.fst)).map (mapGet sv₂) :=
    List.map_congr_left (fun k _ => mapGet_perm hs hsn k)
  have hwargs : (sortStrings (wv₁.map Prod.fst)).map (mapGet wv₁) =
      (sortStrings (wv₁.map Prod.fst)).map (mapGet wv₂) :=
    List.map_congr_left (fun k _ => mapGet_perm hw hwn k)
  rw [hsargs, hwargs]

/-!
Concrete fixtures: the `widgets` table of the test suite (`id` primary key,
`name`), records on the insert and update paths, and canned database
responses.
-/

def widgetsTable : Table :=
  Table.finalize { Name := ["widgets"],
                   Columns := [{ Name := "id", PrimaryKey := true }, { Name := "name" }] }

/-- A fresh record: insert path. -/
def newWidget : Record := widgetsTable.NewRecord

/-- Fresh record with one attribute assigned. -/
def namedWidget : Record := (newWidget.Set "name" (GoValue.str "sprocket")).getD newWidget

/-- A record hydrated from a row: update path, nothing assigned. -/
def loadedWidget : Record :=
  match widgetsTable.RowToRecord [GoValue.int 1, GoValue.str "gear"] with
  | .ok r => r
  | .error _ => newWidget

/-- Hydrated record with one attribute assigned. -/
def editedWidget : Record := (loadedWidget.Set "name" (GoValue.str "cog")).getD loadedWidget

/-- Hydrated record with its primary-key attribute assigned. -/
def pkAssignedWidget : Record := (loadedWidget.Set "id" (GoValue.int 9)).getD loadedWidget

/-- A database that answers every query with two rows. -/
def twoRowDB : GoDB := fun _ _ =>
  .resultRows [[GoValue.int 5, GoValue.str "x"], [GoValue.int 6, GoValue.str "y"]] ⟨2⟩ none

/-- A database that answers every query with exactly one row. -/
def oneRowDB : GoDB := fun _ _ =>
  .resultRows [[GoValue.int 7, GoValue.str "z"]] ⟨1⟩ none

theorem namedWidget_WF : namedWidget.WF := by
  refine ⟨⟨?_, ?_, ?_, ?_, ?_⟩, ?_, ?_⟩ <;> decide

theorem editedWidget_WF : editedWidget.WF := by
  refine ⟨⟨?_, ?_, ?_, ?_, ?_⟩, ?_, ?_⟩ <;> decide

theorem pkAssignedWidget_WF : pkAssignedWidget.WF := by
  refine ⟨⟨?_, ?_, ?_, ?_, ?_⟩, ?_, ?_⟩ <;> decide

/-- With no hooks configured, `Save` is the statement-execution tail. -/
theorem Save_no_hooks (r : Record) (db : GoDB) :
    r.Save db none none =
      Record.saveExec { r with table := { r.table with validationErrors := none } } db := rfl

/-- Clearing `validationErrors` does not change the generated statement. -/
theorem saveQuery_clearVE (r : Record) :
    Record.saveQuery { r with table := { r.table with validationErrors := none } } =
      r.saveQuery := by
  cases r with
  | mk t o attrs asn =>
    cases t
    cases o <;> rfl

/-- C1: the insert-vs-update decision of `Save` is determined solely by the
presence of the original-attributes snapshot: `NewRecord` leaves it nil (so
the first `Save` builds an INSERT), `RowToRecord` always sets it to the
scanned row (even an all-nil row), so `Save` builds an UPDATE. -/
theorem C1_snapshot_discriminant :
    (∀ t : Table, t.NewRecord.originalAttributes = none) ∧
    (∀ (t : Table) (row : List GoValue) (r' : Record),
        t.RowToRecord row = .ok r' → r'.originalAttributes = some row) ∧
    (∀ r : Record, r.originalAttributes = none →
        r.saveQuery = r.insert ∧ ∃ rest, (r.saveQuery).1 = "insert into " ++ rest) ∧
    (∀ r : Record, r.originalAttributes ≠ none →
        r.saveQuery = r.update ∧ ∃ rest, (r.saveQuery).1 = "update " ++ rest) := by
  refine ⟨fun t => rfl, ?_, ?_, ?_⟩
  · intro t row r' h
    simp only [Table.RowToRecord] at h
    split at h <;> split at h <;> first | (cases h; rfl) | cases h
  · intro r h
    have hq : r.saveQuery = r.insert := by
      unfold Record.saveQuery
      rw [h]
    refine ⟨hq, ?_⟩
    rw [hq]
    refine ⟨r.table.quotedQualifiedName ++ (" (" ++
      (commaJoin ", " (r.assignedIdxs.map r.table.colQuotedName) ++ (") values (" ++
        (commaJoin ", " (phList 1 r.assignedIdxs.length) ++ (") " ++
          r.table.returningClause))))), ?_⟩
    rw [Record.insert_eq]
    simp [String.append_assoc]
  · intro r h
    have hq : r.saveQuery = r.update := by
      unfold Record.saveQuery
      cases ho : r.originalAttributes with
      | none => exact absurd ho h
      | some orig => rfl
    refine ⟨hq, ?_⟩
    rw [hq]
    refine ⟨r.table.quotedQualifiedName ++ (" set " ++
      (commaJoin ", "
        (setPairs r.table.colQuotedName r.table.pkIndexes.length r.assignedIdxs) ++
        (" " ++ (r.table.pkWhereClause ++ (" " ++ r.table.returningClause))))), ?_⟩
    rw [Record.update_eq]
    simp [String.append_assoc]

/-- Witness for C1 on the `widgets` fixtures. -/
theorem C1_witness :
    widgetsTable.NewRecord.originalAttributes = none ∧
    loadedWidget.originalAttributes = some [GoValue.int 1, GoValue.str "gear"] ∧
    namedWidget.saveQuery = namedWidget.insert ∧
    loadedWidget.saveQuery = loadedWidget.update := by
  refine ⟨C1_snapshot_discriminant.1 widgetsTable, ?_, ?_, ?_⟩
  · exact C1_snapshot_discriminant.2.1 widgetsTable [GoValue.int 1, GoValue.str "gear"]
      loadedWidget (by rfl)
  · exact (C1_snapshot_discriminant.2.2.1 namedWidget (by decide)).1
  · exact (C1_snapshot_discriminant.2.2.2 loadedWidget (by decide)).1

/-- C2 as stated is false: when the database returns more than one row for
the save statement, `queryRow` scans the first row into the record's
attribute vector *before* noticing the second row, so the failing `Save`
leaves the attributes changed. -/
theorem C2_counterexample :
    ((loadedWidget.Save twoRowDB none none).1).isSome = true ∧
    (loadedWidget.Save twoRowDB none none).2.attributes ≠ loadedWidget.attributes ∧
    (loadedWidget.Save twoRowDB none none).2.attributes = [GoValue.int 5, GoValue.str "x"] := by
  decide

/-- C2 amended: on a failing hook-free `Save`, the snapshot and the
assigned bitmap are always unchanged, and the attribute vector is unchanged
for query errors and zero-row results, but has been overwritten by scanning
the first returned row whenever at least one row came back (the
more-than-one-row failure and post-scan rows errors). -/
theorem C2_amended_failure_state :
    ∀ (r : Record) (db : GoDB),
      ((r.Save db none none).1).isSome = true →
      (r.Save db none none).2.originalAttributes = r.originalAttributes ∧
      (r.Save db none none).2.assigned = r.assigned ∧
      (match db (r.saveQuery).1 (r.saveQuery).2 with
       | .queryError _ => (r.Save db none none).2.attributes = r.attributes
       | .resultRows [] _ _ => (r.Save db none none).2.attributes = r.attributes
       | .resultRows (row1 :: _) _ _ =>
          (r.Save db none none).2.attributes = scanRow r.attributes row1) := by
  intro r db hfail
  rw [Save_no_hooks] at hfail ⊢
  simp only [Record.saveExec, saveQuery_clearVE] at hfail ⊢
  cases hdb : db (r.saveQuery).1 (r.saveQuery).2 with
  | queryError e => simp [queryRow, hdb]
  | resultRows rs tag rowsErr =>
    cases rs with
    | nil => simp [queryRow, hdb]
    | cons row1 rest =>
      cases rest with
      | nil =>
        cases rowsErr with
        | none => simp [queryRow, hdb] at hfail
        | some e => simp [queryRow, hdb]
      | cons row2 rest2 => simp [queryRow, hdb]

/-- Witness for the amended C2. -/
theorem C2_amended_witness :
    (loadedWidget.Save twoRowDB none none).2.originalAttributes =
      loadedWidget.originalAttributes ∧
    (loadedWidget.Save twoRowDB none none).2.assigned = loadedWidget.assigned := by
  have h := C2_amended_failure_state loadedWidget twoRowDB (by decide)
  exact ⟨h.1, h.2.1⟩

/-- C4 as stated is false: an update-path `Save` with zero assigned columns
is not rejected client-side; the malformed `update ... set  where ...`
statement is built and handed to the database (here a database that answers
with one row makes the `Save` succeed). -/
theorem C4_counterexample :
    (loadedWidget.saveQuery).1 =
      "update \"widgets\" set  where \"id\" = $1 returning \"id\", \"name\"" ∧
    (loadedWidget.Save oneRowDB none none).1 = none := by
  decide

/-- C4 amended: on the update path with zero assigned columns, `Save` emits
an UPDATE with an empty SET list (the text reads `update <t> set  where ...`)
and executes it; any rejection can only come from the database. -/
theorem C4_amended_empty_set_reaches_db :
    ∀ r : Record, r.originalAttributes ≠ none → r.assignedIdxs = [] →
      (r.saveQuery).1 = "update " ++ r.table.quotedQualifiedName ++ " set " ++ "" ++ " " ++
        r.table.pkWhereClause ++ " " ++ r.table.returningClause ∧
      (∀ (db : GoDB) (row : List GoValue) (tag : CommandTag),
        db (r.saveQuery).1 (r.saveQuery).2 = .resultRows [row] tag none →
        (r.Save db none none).1 = none) := by
  intro r h hempty
  have hq : r.saveQuery = r.update := by
    unfold Record.saveQuery
    cases ho : r.originalAttributes with
    | none => exact absurd ho h
    | some orig => rfl
  constructor
  · rw [hq, Record.update_eq, hempty]
    rfl
  · intro db row tag hdb
    rw [Save_no_hooks]
    simp only [Record.saveExec, saveQuery_clearVE]
    simp [queryRow, hdb]

/-- Witness for the amended C4. -/
theorem C4_amended_witness :
    (loadedWidget.saveQuery).1 = "update " ++ loadedWidget.table.quotedQualifiedName ++
      " set " ++ "" ++ " " ++ loadedWidget.table.pkWhereClause ++ " " ++
      loadedWidget.table.returningClause ∧
    (loadedWidget.Save oneRowDB none none).1 = none := by
  have h := C4_amended_empty_set_reaches_db loadedWidget (by decide) (by decide)
  exact ⟨h.1, h.2 oneRowDB [GoValue.int 7, GoValue.str "z"] ⟨1⟩ (by decide)⟩

/-- C3: the INSERT column list is exactly the assigned columns in column
order, with matching values as arguments; the UPDATE SET list is exactly the
same assigned set, and primary-key columns are not excluded from it (an
assigned primary-key column appears among the SET targets). -/
theorem C3_minimal_sql :
    (∀ r : Record,
      r.insert =
        ("insert into " ++ r.table.quotedQualifiedName ++ " (" ++
          commaJoin ", " (r.assignedIdxs.map r.table.colQuotedName) ++ ") values (" ++
          commaJoin ", " (phList 1 r.assignedIdxs.length) ++ ") " ++
          r.table.returningClause,
         r.assignedIdxs.map (fun i => r.attributes.getD i GoValue.nil))) ∧
    (∀ r : Record,
      r.update =
        ("update " ++ r.table.quotedQualifiedName ++ " set " ++
          commaJoin ", "
            (setPairs r.table.colQuotedName r.table.pkIndexes.length r.assignedIdxs) ++
          " " ++ r.table.pkWhereClause ++ " " ++ r.table.returningClause,
         r.table.pkIndexes.map (fun i => r.attributes.getD i GoValue.nil) ++
           r.assignedIdxs.map (fun i => r.attributes.getD i GoValue.nil))) ∧
    (∀ r : Record, r.WF → ∀ i ∈ r.table.pkIndexes,
      r.assigned.getD i false = true → i ∈ r.assignedIdxs) := by
  refine ⟨Record.insert_eq, Record.update_eq, ?_⟩
  intro r hwf i hpk hassigned
  unfold Record.assignedIdxs
  rw [List.mem_filter]
  refine ⟨List.mem_range.mpr ?_, hassigned⟩
  have h1 := hwf.1.2.2.2.2 i hpk
  have h2 := hwf.2.2
  omega

/-- Witness for C3: with the primary key assigned, the SET list includes it. -/
theorem C3_witness :
    0 ∈ pkAssignedWidget.table.pkIndexes ∧ 0 ∈ pkAssignedWidget.assignedIdxs := by
  refine ⟨by decide, C3_minimal_sql.2.2 pkAssignedWidget pkAssignedWidget_WF 0 (by decide) (by decide)⟩

/-- C5: in every generated statement, the placeholders that occur in the SQL
text are exactly `$1..$N` where `N` is the length of the argument list, each
exactly once (so `$k` denotes the `k`-th argument). For the free builders
this holds for any returning clause not containing a `$`. -/
theorem C5_placeholder_alignment :
    (∀ r : Record, r.WF →
      (placeholders (r.insert).1).Perm (List.range' 1 (r.insert).2.length)) ∧
    (∀ r : Record, r.WF →
      (placeholders (r.update).1).Perm (List.range' 1 (r.update).2.length)) ∧
    (∀ (tableName : List String) (values : GoMap) (ret : String), '$' ∉ ret.data →
      (placeholders (insertRowSQL tableName values ret).1).Perm
        (List.range' 1 (insertRowSQL tableName values ret).2.length)) ∧
    (∀ (tableName : List String) (rows : List GoMap) (ret : String), '$' ∉ ret.data →
      (placeholders (insertSQL tableName rows ret).1).Perm
        (List.range' 1 (insertSQL tableName rows ret).2.length)) ∧
    (∀ (tableName : List String) (sv wv : GoMap) (ret : String), '$' ∉ ret.data →
      (placeholders (updateSQL tableName sv wv ret).1).Perm
        (List.range' 1 (updateSQL tableName sv wv ret).2.length)) := by
  refine ⟨?_, ?_, ?_, ?_, ?_⟩
  · intro r h
    rw [placeholders_insert r h]
    have hlen : (r.insert).2.length = r.assignedIdxs.length := by
      rw [Record.insert_eq]
      simp
    rw [hlen]
  · intro r h
    rw [placeholders_update r h]
    have hlen : (r.update).2.length =
        r.table.pkIndexes.length + r.assignedIdxs.length := by
      rw [Record.update_eq]
      simp
    rw [hlen]
    have hglue : List.range' 1 r.table.pkIndexes.length ++
        List.range' (r.table.pkIndexes.length + 1) r.assignedIdxs.length =
        List.range' 1 (r.table.pkIndexes.length + r.assignedIdxs.length) := by
      have := range'_glue r.table.pkIndexes.length 1 r.assignedIdxs.length
      rw [show 1 + r.table.pkIndexes.length = r.table.pkIndexes.length + 1 by omega] at this
      exact this
    rw [← hglue]
    exact List.perm_append_comm
  · intro tableName values ret hret
    rw [placeholders_insertRowSQL tableName values ret hret]
    have hlen : (insertRowSQL tableName values ret).2.length =
        (sortStrings (values.map Prod.fst)).length := by
      rw [insertRowSQL_eq]
      simp
    rw [hlen]
  · intro tableName rows ret hret
    rw [placeholders_insertSQL tableName rows ret hret]
    have hlen : (insertSQL tableName rows ret).2.length =
        rows.length * (sortStrings ((rows.getD 0 []).map Prod.fst)).length := by
      rw [insertSQL_eq]
      exact length_flatMap_keys _ _
    rw [hlen]
  · intro tableName sv wv ret hret
    rw [placeholders_updateSQL tableName sv wv ret hret]
    have hlen : (updateSQL tableName sv wv ret).2.length =
        (sortStrings (sv.map Prod.fst)).length + (sortStrings (wv.map Prod.fst)).length := by
      rw [updateSQL_eq]
      simp
    rw [hlen]

/-- Witness for C5 on the `widgets` INSERT. -/
theorem C5_witness :
    (placeholders (namedWidget.insert).1).Perm
      (List.range' 1 (namedWidget.insert).2.length) :=
  C5_placeholder_alignment.1 namedWidget namedWidget_WF

/-- C6 as stated is false: in `Record.update` the primary-key values are
appended to the argument list first, but their placeholders `$1..$k` are
emitted in the WHERE clause, textually after the SET placeholders, so the
textual emission order does not match the append order. Concretely, for a
hydrated widget with `name` assigned the text reads `set "name" = $2 where
"id" = $1`: placeholders appear as `[2, 1]`, not `[1, 2]`. -/
theorem C6_counterexample :
    placeholders (editedWidget.update).1 = [2, 1] ∧
    (editedWidget.update).2.length = 2 ∧
    placeholders (editedWidget.update).1 ≠
      List.range' 1 (editedWidget.update).2.length := by
  decide

/-- C6 amended: parameter numbers always follow append order (`$N` is the
`N`-th appended argument), and the textual emission order equals the append
order for `Record.insert` and the free builders; in `Record.update`,
however, the SET placeholders `$(k+1)..$(k+m)` textually precede the WHERE
placeholders `$1..$k`. -/
theorem C6_amended_emission_order :
    (∀ r : Record, r.WF →
      placeholders (r.insert).1 = List.range' 1 (r.insert).2.length) ∧
    (∀ (tableName : List String) (values : GoMap) (ret : String), '$' ∉ ret.data →
      placeholders (insertRowSQL tableName values ret).1 =
        List.range' 1 (insertRowSQL tableName values ret).2.length) ∧
    (∀ (tableName : List String) (rows : List GoMap) (ret : String), '$' ∉ ret.data →
      placeholders (insertSQL tableName rows ret).1 =
        List.range' 1 (insertSQL tableName rows ret).2.length) ∧
    (∀ (tableName : List String) (sv wv : GoMap) (ret : String), '$' ∉ ret.data →
      placeholders (updateSQL tableName sv wv ret).1 =
        List.range' 1 (updateSQL tableName sv wv ret).2.length) ∧
    (∀ r : Record, r.WF →
      placeholders (r.update).1 =
        List.range' (r.table.pkIndexes.length + 1) r.assignedIdxs.length ++
          List.range' 1 r.table.pkIndexes.length) := by
  refine ⟨?_, ?_, ?_, ?_, fun r h => placeholders_update r h⟩
  · intro r h
    rw [placeholders_insert r h]
    have hlen : (r.insert).2.length = r.assignedIdxs.length := by
      rw [Record.insert_eq]
      simp
    rw [hlen]
  · intro tableName values ret hret
    rw [placeholders_insertRowSQL tableName values ret hret]
    have hlen : (insertRowSQL tableName values ret).2.length =
        (sortStrings (values.map Prod.fst)).length := by
      rw [insertRowSQL_eq]
      simp
    rw [hlen]
  · intro tableName rows ret hret
    rw [placeholders_insertSQL tableName rows ret hret]
    have hlen : (insertSQL tableName rows ret).2.length =
        rows.length * (sortStrings ((rows.getD 0 []).map Prod.fst)).length := by
      rw [insertSQL_eq]
      exact length_flatMap_keys _ _
    rw [hlen]
  · intro tableName sv wv ret hret
    rw [placeholders_updateSQL tableName sv wv ret hret]
    have hlen : (updateSQL tableName sv wv ret).2.length =
        (sortStrings (sv.map Prod.fst)).length + (sortStrings (wv.map Prod.fst)).length := by
      rw [updateSQL_eq]
      simp
    rw [hlen]

/-- Witness for the amended C6 on the `widgets` UPDATE. -/
theorem C6_amended_witness :
    placeholders (editedWidget.update).1 =
      List.range' (editedWidget.table.pkIndexes.length + 1)
        editedWidget.assignedIdxs.length ++
      List.range' 1 editedWidget.table.pkIndexes.length :=
  C6_amended_emission_order.2.2.2.2 editedWidget editedWidget_WF

/-- C7: with a cleanly executing query, `queryRow` fails with `pgx.ErrNoRows`
on zero returned rows, with the too-many-rows error on more than one, and
succeeds exactly on one; `ExecRow` does the same on the affected-rows count. -/
theorem C7_row_count_policy :
    ∀ (db : GoDB) (sql : String) (args targets : List GoValue)
      (rs : List (List GoValue)) (tag : CommandTag),
      db sql args = .resultRows rs tag none →
      (((queryRow db sql args targets).1 = none) ↔ rs.length = 1) ∧
      (rs.length = 0 → (queryRow db sql args targets).1 = some .errNoRows) ∧
      (rs.length > 1 → (queryRow db sql args targets).1 = some .tooManyRows) ∧
      (((ExecRow db sql args).2 = none) ↔ tag.rowsAffected = 1) ∧
      (tag.rowsAffected = 0 → (ExecRow db sql args).2 = some .errNoRows) ∧
      (tag.rowsAffected > 1 → (ExecRow db sql args).2 = some .tooManyRows) := by
  intro db sql args targets rs tag hdb
  refine ⟨?_, ?_, ?_, ?_, ?_, ?_⟩
  · cases rs with
    | nil => simp [queryRow, hdb]
    | cons r1 rest =>
      cases rest with
      | nil => simp [queryRow, hdb]
      | cons r2 rest2 => simp [queryRow, hdb]
  · intro h0
    have : rs = [] := List.eq_nil_of_length_eq_zero h0
    subst this
    simp [queryRow, hdb]
  · intro h1
    match rs, h1 with
    | r1 :: r2 :: rest, _ => simp [queryRow, hdb]
  · simp only [ExecRow, exec, hdb]
    split
    · rename_i h0
      simp [h0]
    · split
      · rename_i h0 h2
        constructor
        · intro h
          simp at h
        · intro h
          omega
      · rename_i h0 h2
        constructor
        · intro _
          omega
        · intro _
          rfl
  · intro h0
    simp [ExecRow, exec, hdb, h0]
  · intro h2
    simp only [ExecRow, exec, hdb]
    split
    · rename_i h0
      omega
    · rfl

/-- Witness for C7 on the canned one-row database. -/
theorem C7_witness :
    (queryRow oneRowDB "q" [] []).1 = none ∧ (ExecRow oneRowDB "q" []).2 = none := by
  have h := C7_row_count_policy oneRowDB "q" [] []
    [[GoValue.int 7, GoValue.str "z"]] ⟨1⟩ rfl
  exact ⟨h.1.mpr rfl, h.2.2.2.1.mpr rfl⟩

/-- C8: the free builders sort the map keys, so their whole output (SQL text
and argument list) is invariant under the map's iteration order, and the
emitted key order is sorted ascending in byte order. -/
theorem C8_stable_free_builders :
    ∀ (tableName : List String) (ret : String) (m₁ m₂ sv₁ sv₂ wv₁ wv₂ : GoMap),
      m₁.Perm m₂ → (m₁.map Prod.fst).Nodup →
      sv₁.Perm sv₂ → (sv₁.map Prod.fst).Nodup →
      wv₁.Perm wv₂ → (wv₁.map Prod.fst).Nodup →
      insertRowSQL tableName m₁ ret = insertRowSQL tableName m₂ ret ∧
      updateSQL tableName sv₁ wv₁ ret = updateSQL tableName sv₂ wv₂ ret ∧
      (sortStrings (m₁.map Prod.fst)).Pairwise (fun a b => strLeB a b = true) := by
  intro tableName ret m₁ m₂ sv₁ sv₂ wv₁ wv₂ hm hmn hs hsn hw hwn
  exact ⟨insertRowSQL_perm tableName ret hm hmn,
    updateSQL_perm tableName ret hs hsn hw hwn,
    sortStrings_sorted _⟩

/-- Witness for C8 on two iteration orders of the same two-key map. -/
theorem C8_witness :
    insertRowSQL ["t"] [("b", GoValue.int 2), ("a", GoValue.int 1)] "" =
      insertRowSQL ["t"] [("a", GoValue.int 1), ("b", GoValue.int 2)] "" :=
  (C8_stable_free_builders ["t"] "" [("b", GoValue.int 2), ("a", GoValue.int 1)]
    [("a", GoValue.int 1), ("b", GoValue.int 2)] [] [] [] []
    (by decide) (by decide) (List.Perm.refl []) (by decide)
    (List.Perm.refl []) (by decide)).1

/-- C9 as stated is false: `SetAttributesStrict` mutates the record entry by
entry in iteration order and only then reports the first unknown key, so a
known key iterated before the unknown one has already been applied when the
error is returned. -/
theorem C9_counterexample :
    ((newWidget.SetAttributesStrict
        [("name", GoValue.str "x"), ("bogus", GoValue.int 0)]).1).isSome = true ∧
    (newWidget.SetAttributesStrict
        [("name", GoValue.str "x"), ("bogus", GoValue.int 0)]).2.assigned ≠
      newWidget.assigned := by
  decide

/-- C9 amended: when some key is unknown, `SetAttributesStrict` does return
an unknown-attribute error, but the entries iterated before the first
unknown key have already been applied; the record is unchanged only when the
unknown key happens to be iterated first. -/
theorem C9_amended_strict_set :
    ∀ (r : Record) (l : List (String × GoValue)),
      (∃ p ∈ l, mapLookupNat r.table.nameToColumnIndex p.1 = none) →
      ((r.SetAttributesStrict l).1.isSome = true ∧
       (r.SetAttributesStrict l).2 =
         r.SetAttributes
           (l.takeWhile (fun p => (mapLookupNat r.table.nameToColumnIndex p.1).isSome))) := by
  intro r l
  induction l generalizing r with
  | nil =>
    rintro ⟨p, hp, _⟩
    simp at hp
  | cons kv rest ih =>
    rintro ⟨p, hp, hnone⟩
    obtain ⟨k, v⟩ := kv
    cases hlook : mapLookupNat r.table.nameToColumnIndex k with
    | none =>
      refine ⟨by simp [Record.SetAttributesStrict, hlook], ?_⟩
      rw [List.takeWhile_cons_of_neg (by simp [hlook])]
      simp [Record.SetAttributesStrict, hlook, Record.SetAttributes]
    | some idx =>
      have hrest : ∃ p ∈ rest, mapLookupNat r.table.nameToColumnIndex p.1 = none := by
        rw [List.mem_cons] at hp
        rcases hp with rfl | hp
        · rw [hnone] at hlook
          cases hlook
        · exact ⟨p, hp, hnone⟩
      have := ih { r with attributes := r.attributes.set idx v,
                          assigned := r.assigned.set idx true } hrest
      refine ⟨?_, ?_⟩
      · simpa [Record.SetAttributesStrict, hlook] using this.1
      · rw [List.takeWhile_cons_of_pos (by simp [hlook])]
        simp only [Record.SetAttributesStrict, hlook, Record.SetAttributes]
        exact this.2

/-- Witness for the amended C9. -/
theorem C9_amended_witness :
    ((newWidget.SetAttributesStrict
        [("name", GoValue.str "x"), ("bogus", GoValue.int 0)]).1).isSome = true ∧
    (newWidget.SetAttributesStrict
        [("name", GoValue.str "x"), ("bogus", GoValue.int 0)]).2 =
      newWidget.SetAttributes
        ([("name", GoValue.str "x"), ("bogus", GoValue.int 0)].takeWhile
          (fun p => (mapLookupNat newWidget.table.nameToColumnIndex p.1).isSome)) :=
  C9_amended_strict_set newWidget [("name", GoValue.str "x"), ("bogus", GoValue.int 0)]
    ⟨("bogus", GoValue.int 0), by decide, by decide⟩

/-- C10: the free `Insert` and `InsertReturning` short-circuit on an empty
rows slice, returning the zero command tag (resp. a nil slice) and no error;
the result does not depend on the database handle, so no query is issued. -/
theorem C10_empty_rows :
    ∀ (db : GoDB) (tableName : List String),
      Insert db tableName [] = ({ rowsAffected := 0 }, none) ∧
      ∀ (T : Type) (ret : String) (scanFn : List GoValue → Except String T),
        InsertReturning db tableName [] ret scanFn = Except.ok [] := by
  intro db tableName
  exact ⟨rfl, fun T ret scanFn => rfl⟩

end Pgxrecord
